import Mathlib

/-
Verification of the configuration-upgrade engine in
src/ludwig/utils/backward_compatibility.py.

A configuration document is a nested structure of mappings (Python dict with
string keys and insertion order), ordered sequences (Python list) and scalars
(strings, integers, booleans, None).  It is embedded as the mutual inductive
family Value / ValueList / Entries below; Entries is an ordered association
list mirroring an insertion-ordered Python dict.  Python in-place mutation is
embedded as pure state passing; functions that can raise on a document whose
shape the source does not anticipate return Except String.
-/

namespace Ludwig

mutual
inductive Value where
  | str : String → Value
  | int : Int → Value
  | bool : Bool → Value
  | null : Value
  | list : ValueList → Value
  | dict : Entries → Value
deriving DecidableEq, Repr
inductive ValueList where
  | nil : ValueList
  | cons : Value → ValueList → ValueList
deriving DecidableEq, Repr
inductive Entries where
  | nil : Entries
  | cons : String → Value → Entries → Entries
deriving DecidableEq, Repr
end

/-- Lookup of a key in a mapping: the value of its first occurrence
(a Python dict has at most one occurrence of a key). -/
def dget : Entries → String → Option Value
  | .nil, _ => Option.none
  | .cons k v ps, key => if k = key then some v else dget ps key

/-- Python `key in d`. -/
def dmem (d : Entries) (key : String) : Bool :=
  (dget d key).isSome

/-- Python `d.get(key)`: None when the key is absent. -/
def dgetD (d : Entries) (key : String) : Value :=
  (dget d key).getD .null

/-- Python `d[key] = v`: overwrite the first occurrence in place, otherwise
append at the end (insertion order). -/
def dset : Entries → String → Value → Entries
  | .nil, key, v => .cons key v .nil
  | .cons k w ps, key, v =>
      if k = key then .cons key v ps else .cons k w (dset ps key v)

/-- Python `del d[key]` / `d.pop(key)`: remove the key. -/
def ddel : Entries → String → Entries
  | .nil, _ => .nil
  | .cons k v ps, key =>
      if k = key then ddel ps key else .cons k v (ddel ps key)

/-- Snapshot of the items of a mapping, as in Python `list(d.items())`. -/
def Entries.toList : Entries → List (String × Value)
  | .nil => []
  | .cons k v ps => (k, v) :: ps.toList

/-- Build a mapping from a list of items (convenience for concrete documents). -/
def Entries.ofL : List (String × Value) → Entries
  | [] => .nil
  | (k, v) :: ps => .cons k v (Entries.ofL ps)

/-- Build a sequence from a list of values (convenience for concrete documents). -/
def ValueList.ofL : List Value → ValueList
  | [] => .nil
  | v :: vs => .cons v (ValueList.ofL vs)

/-- Convenience: a mapping value from a list of items. -/
def Value.obj (ps : List (String × Value)) : Value :=
  .dict (Entries.ofL ps)

/-
String constants imported by the source from ludwig.constants; the spec
records their literal values.
-/

def TRAINING : String := "training"
def TRAINER : String := "trainer"
def TYPE : String := "type"
def NUMBER : String := "number"
def HYPEROPT : String := "hyperopt"
def PARAMETERS : String := "parameters"
def EXECUTOR : String := "executor"
def RAY : String := "ray"
def SEARCH_ALG : String := "search_alg"
def SAMPLER : String := "sampler"
def SCHEDULER : String := "scheduler"
def EVAL_BATCH_SIZE : String := "eval_batch_size"
def INPUT_FEATURES : String := "input_features"
def OUTPUT_FEATURES : String := "output_features"
def PREPROCESSING : String := "preprocessing"
def DEFAULTS : String := "defaults"

/-
_traverse_dicts(config, f): applies f to every mapping contained in config,
leaves first, root last; sequences are walked element by element; scalars are
left alone.  The in-place mutation of the source becomes pure rebuilding.
-/

mutual
def traverseValue (f : Entries → Entries) : Value → Value
  | .list vs => .list (traverseList f vs)
  | .dict ps => .dict (f (traverseEntries f ps))
  | v => v
def traverseList (f : Entries → Entries) : ValueList → ValueList
  | .nil => .nil
  | .cons v vs => .cons (traverseValue f v) (traverseList f vs)
def traverseEntries (f : Entries → Entries) : Entries → Entries
  | .nil => .nil
  | .cons k v ps => .cons k (traverseValue f v) (traverseEntries f ps)
end

/-- One block of _upgrade_use_bias: if old is in config, copy its value to the
new key and delete the old key. -/
def renameKey (config : Entries) (old new : String) : Entries :=
  if dmem config old then ddel (dset config new (dgetD config old)) old else config

/-- _upgrade_use_bias: in each mapping, rename bias to use_bias, conv_bias to
conv_use_bias and default_bias to default_use_bias (three identical blocks in
source order; each copies the value to the new key, then deletes the old). -/
def upgrade_use_bias (config : Entries) : Entries :=
  renameKey
    (renameKey (renameKey config "bias" "use_bias") "conv_bias" "conv_use_bias")
    "default_bias" "default_use_bias"

/-- _upgrade_feature: rewrite a type of "numerical" to "number", then run
_traverse_dicts(feature, _upgrade_use_bias) over the whole feature mapping
(children first, the feature mapping itself last). -/
def upgrade_feature (feature : Entries) : Entries :=
  let feature :=
    if dget feature TYPE = some (.str "numerical") then dset feature TYPE (.str NUMBER)
    else feature
  upgrade_use_bias (traverseEntries upgrade_use_bias feature)

/-- Python k.startswith("training.") on a key, read as a character-sequence
test (str.startswith is exactly list-prefix on the characters). -/
def hasTrainingDot (k : String) : Bool :=
  List.isPrefixOf (String.toList "training.") (String.toList k)

/-- One parameter rename of _upgrade_hyperopt: hparams["trainer." + k[9:]] = v
followed by del hparams[k], for a snapshot item (k, v) whose key starts with
"training." (the literal has length 9). -/
def renameHparam (acc : Entries) (kv : String × Value) : Entries :=
  if hasTrainingDot kv.1 then
    ddel (dset acc ("trainer." ++ String.drop kv.1 9) kv.2) kv.1
  else acc

/-- Loop of _upgrade_hyperopt over list(hparams.items()): every key with the
"training." name is rewritten to the "trainer." name, keeping its value. -/
def renameTrainingParams (hparams : Entries) : Entries :=
  hparams.toList.foldl renameHparam hparams

/-- Block of _upgrade_hyperopt handling hyperopt["parameters"], when present. -/
def hyperoptParamsStage (h : Entries) : Except String Entries :=
  match dget h PARAMETERS with
  | some (.dict hparams) => .ok (dset h PARAMETERS (.dict (renameTrainingParams hparams)))
  | some _ => .error "hyperopt parameters section is not a mapping"
  | Option.none => .ok h

/-- First half of the executor block of _upgrade_hyperopt: executor_type is
hpexecutor.get("type") (None when absent); when it is neither None nor "ray"
it is forced to "ray". -/
def fixExecutorType (hpexecutor : Entries) : Entries :=
  if dgetD hpexecutor TYPE ≠ .null ∧ dgetD hpexecutor TYPE ≠ .str RAY then
    dset hpexecutor TYPE (.str RAY)
  else hpexecutor

/-- Second half of the executor block of _upgrade_hyperopt: a search_alg held
by the executor is promoted to the top level unless the top level already has
one, and is deleted from the executor either way; the possibly rewritten
executor mapping is the value of the executor key of the result (the source
mutates it in place). -/
def promoteExecutorSearchAlg (h : Entries) (hpexecutor : Entries) : Entries :=
  if dmem hpexecutor SEARCH_ALG then
    dset (if ¬ dmem h SEARCH_ALG then dset h SEARCH_ALG (dgetD hpexecutor SEARCH_ALG) else h)
      EXECUTOR (.dict (ddel hpexecutor SEARCH_ALG))
  else dset h EXECUTOR (.dict hpexecutor)

/-- Block of _upgrade_hyperopt handling hyperopt["executor"]: when present,
fix its type and move its search_alg; when absent, insert an executor with
type "ray". -/
def hyperoptExecutorStage (h : Entries) : Except String Entries :=
  match dget h EXECUTOR with
  | some (.dict hpexecutor) => .ok (promoteExecutorSearchAlg h (fixExecutorType hpexecutor))
  | some _ => .error "hyperopt executor section is not a mapping"
  | Option.none => .ok (dset h EXECUTOR (.dict (.cons TYPE (.str RAY) .nil)))

/-- Conditional move of one sampler key into the executor: if key is in the
sampler and not in hyperopt["executor"], copy it there (the executor access
fails on a document where the executor is not a mapping). -/
def samplerCopy (h : Entries) (sampler : Entries) (key : String) : Except String Entries :=
  if dmem sampler key then
    match dget h EXECUTOR with
    | some (.dict ex) =>
        .ok (if ¬ dmem ex key then dset h EXECUTOR (.dict (dset ex key (dgetD sampler key))) else h)
    | some _ => .error "hyperopt executor section is not a mapping"
    | Option.none => .error "hyperopt executor section is missing"
  else .ok h

/-- First block of the sampler migration: a search_alg held by the sampler is
promoted to the hyperopt top level when the top level has none. -/
def promoteSamplerSearchAlg (h : Entries) (sampler : Entries) : Entries :=
  if dmem sampler SEARCH_ALG ∧ ¬ dmem h SEARCH_ALG then
    dset h SEARCH_ALG (dgetD sampler SEARCH_ALG)
  else h

/-- Block of _upgrade_hyperopt handling a legacy hyperopt["sampler"]: promote
its search_alg to the top level when the top level has none, conditionally
move num_samples and scheduler into the executor, then delete the sampler. -/
def hyperoptSamplerStage (h : Entries) : Except String Entries :=
  match dget h SAMPLER with
  | some (.dict sampler) =>
      match samplerCopy (promoteSamplerSearchAlg h sampler) sampler "num_samples" with
      | .ok h2 =>
          match samplerCopy h2 sampler SCHEDULER with
          | .ok h3 => .ok (ddel h3 SAMPLER)
          | .error e => .error e
      | .error e => .error e
  | some _ => .error "hyperopt sampler section is not a mapping"
  | Option.none => .ok h

/-- Final block of _upgrade_hyperopt: a document still lacking a top-level
search_alg receives the default one. -/
def hyperoptDefaultSearchAlg (h : Entries) : Entries :=
  if ¬ dmem h SEARCH_ALG then
    dset h SEARCH_ALG (.dict (.cons TYPE (.str "variant_generator") .nil))
  else h

/-- _upgrade_hyperopt: the four blocks above, in source order. -/
def upgrade_hyperopt (h : Entries) : Except String Entries := do
  let h ← hyperoptParamsStage h
  let h ← hyperoptExecutorStage h
  let h ← hyperoptSamplerStage h
  .ok (hyperoptDefaultSearchAlg h)

/-- Python loose equality of trainer.get("eval_batch_size") with the literal 0:
the integer 0 and the boolean False compare equal to 0; None, strings,
sequences and mappings do not. -/
def eqZeroPy : Value → Bool
  | .int n => n == 0
  | .bool b => b == false
  | _ => false

/-- _upgrade_trainer: an eval_batch_size comparing equal to 0 becomes None. -/
def upgrade_trainer (trainer : Entries) : Entries :=
  if eqZeroPy (dgetD trainer EVAL_BATCH_SIZE) then dset trainer EVAL_BATCH_SIZE .null
  else trainer

mutual
/-- Modelled from the spec: merge_dict of ludwig.utils.misc_utils, an external
collaborator whose code is not part of this subsystem.  Per the spec it is the
recursive union of its two mappings, recursing where both sides hold mappings
and otherwise letting the second argument win at the key; the first argument
is not mutated (the source deep-copies it). -/
def merge_dict : Entries → Entries → Entries
  | a, .nil => a
  | a, .cons k v bs => merge_dict (dset a k (mergeValue (dget a k) v)) bs
def mergeValue : Option Value → Value → Value
  | some (.dict ad), .dict bd => .dict (merge_dict ad bd)
  | _, v => v
end

/-- Keys-loop of _upgrade_preprocessing: pop every key of the preprocessing
section that is a registered input feature type; this keeps the remaining
items in order. -/
def dropRegistryKeys (registry : List String) : Entries → Entries
  | .nil => .nil
  | .cons k v ps =>
      if registry.contains k then dropRegistryKeys registry ps
      else .cons k v (dropRegistryKeys registry ps)

/-- Keys-loop of _upgrade_preprocessing, staging side: the items popped into
type_specific_preprocessing_params, in iteration order. -/
def stagedParams (registry : List String) : Entries → List (String × Value)
  | .nil => []
  | .cons k v ps =>
      if registry.contains k then (k, v) :: stagedParams registry ps
      else stagedParams registry ps

/-- Update of the defaults mapping for one staged item
(feature_type, preprocessing_param): insert it when the type is absent, insert
its preprocessing sub-value when the existing defaults entry lacks one, and
otherwise update the existing preprocessing mapping with
merge_dict(existing, staged). -/
def relocateValue (defs : Entries) (ft : String) (pp : Value) : Except String Entries :=
  if ¬ dmem defs ft then .ok (dset defs ft pp)
  else
    match dget defs ft with
    | some (.dict dft) =>
        if ¬ dmem dft PREPROCESSING then
          match pp with
          | .dict ppd =>
              match dget ppd PREPROCESSING with
              | some ppv => .ok (dset defs ft (.dict (dset dft PREPROCESSING ppv)))
              | Option.none => .error "staged value has no preprocessing key"
          | _ => .error "staged value is not a mapping"
        else
          match dget dft PREPROCESSING, pp with
          | some (.dict exPre), .dict ppd =>
              match dget ppd PREPROCESSING with
              | some (.dict stagedPre) =>
                  .ok (dset defs ft
                    (.dict (dset dft PREPROCESSING (.dict (merge_dict exPre stagedPre)))))
              | some _ => .error "staged preprocessing sub-value is not a mapping"
              | Option.none => .error "staged value has no preprocessing key"
          | _, _ => .error "existing defaults preprocessing is not a mapping"
    | _ => .error "existing defaults entry is not a mapping"

/-- Body of the final loop of _upgrade_preprocessing: all three branches write
into config[DEFAULTS] (which must support the membership tests, so it has to
be a mapping). -/
def relocateOne (config : Entries) (ft : String) (pp : Value) : Except String Entries :=
  match dget config DEFAULTS with
  | some (.dict defs) =>
      match relocateValue defs ft pp with
      | .ok defs2 => .ok (dset config DEFAULTS (.dict defs2))
      | .error e => .error e
  | _ => .error "defaults section is not a mapping"

/-- Step of _upgrade_preprocessing inserting an empty defaults section when
the document has none. -/
def ensureDefaults (config : Entries) : Entries :=
  if ¬ dmem config DEFAULTS then dset config DEFAULTS (.dict .nil) else config

/-- _upgrade_preprocessing: pop registered feature-type keys out of the
preprocessing section, make sure a defaults section exists, then relocate each
staged item into defaults. -/
def upgrade_preprocessing (registry : List String) (config : Entries) : Except String Entries :=
  match dget config PREPROCESSING with
  | some (.dict pre) =>
      (stagedParams registry pre).foldlM (fun c kv => relocateOne c kv.1 kv.2)
        (ensureDefaults (dset config PREPROCESSING (.dict (dropRegistryKeys registry pre))))
  | some _ => .error "preprocessing section is not a mapping"
  | Option.none => .error "preprocessing section is missing"

/-- Step of upgrade_deprecated_fields renaming the training section: the value
moves to the trainer key (overwriting an existing trainer), then training is
deleted. -/
def renameTrainingSection (config : Entries) : Entries :=
  match dget config TRAINING with
  | some v => ddel (dset config TRAINER v) TRAINING
  | Option.none => config

/-- Element-wise feature upgrade: each element of a feature list must be a
mapping (feature.get raises otherwise) and is rewritten by _upgrade_feature. -/
def upgradeFeatureList : ValueList → Except String ValueList
  | .nil => .ok .nil
  | .cons v vs => do
      match v with
      | .dict fd => do
          let vs' ← upgradeFeatureList vs
          .ok (.cons (.dict (upgrade_feature fd)) vs')
      | _ => .error "feature entry is not a mapping"

/-- Loop of upgrade_deprecated_fields over one feature list (a missing list is
treated as empty; a non-list value fails as in the source). -/
def upgradeFeaturesKey (config : Entries) (key : String) : Except String Entries :=
  match dget config key with
  | some (.list l) => do
      let l' ← upgradeFeatureList l
      .ok (dset config key (.list l'))
  | some _ => .error "features section is not a list"
  | Option.none => .ok config

/-- Step of upgrade_deprecated_fields running _upgrade_hyperopt on the
hyperopt section when present. -/
def hyperoptStep (config : Entries) : Except String Entries :=
  match dget config HYPEROPT with
  | some (.dict h) => do
      let h' ← upgrade_hyperopt h
      .ok (dset config HYPEROPT (.dict h'))
  | some _ => .error "hyperopt section is not a mapping"
  | Option.none => .ok config

/-- Step of upgrade_deprecated_fields running _upgrade_trainer on the trainer
section when present. -/
def trainerStep (config : Entries) : Except String Entries :=
  match dget config TRAINER with
  | some (.dict t) => .ok (dset config TRAINER (.dict (upgrade_trainer t)))
  | some _ => .error "trainer section is not a mapping"
  | Option.none => .ok config

/-- Step of upgrade_deprecated_fields running _upgrade_preprocessing when the
preprocessing key is present. -/
def preprocessingStep (registry : List String) (config : Entries) : Except String Entries :=
  if dmem config PREPROCESSING then upgrade_preprocessing registry config else .ok config

/-- upgrade_deprecated_fields: the orchestrator, in source order.  The set of
registered input feature types (ludwig.features.feature_registries, an
external read-only collaborator) is passed in as the registry parameter. -/
def upgrade_deprecated_fields (registry : List String) (config : Entries) :
    Except String Entries := do
  let config1 ← upgradeFeaturesKey (renameTrainingSection config) INPUT_FEATURES
  let config2 ← upgradeFeaturesKey config1 OUTPUT_FEATURES
  let config3 ← hyperoptStep config2
  let config4 ← trainerStep config3
  preprocessingStep registry config4

/-
Predicates and concrete documents used by the theorem statements.
-/

/-- A mapping carries none of the three deprecated bias keys itself. -/
def noBadKeys (d : Entries) : Bool :=
  !(dmem d "bias") && !(dmem d "conv_bias") && !(dmem d "default_bias")

mutual
/-- No mapping anywhere in the value carries a deprecated bias key. -/
def cleanV : Value → Bool
  | .list vs => cleanL vs
  | .dict ps => noBadKeys ps && cleanE ps
  | _ => true
/-- No mapping anywhere in the sequence carries a deprecated bias key. -/
def cleanL : ValueList → Bool
  | .nil => true
  | .cons v vs => cleanV v && cleanL vs
/-- No mapping anywhere below the entries carries a deprecated bias key. -/
def cleanE : Entries → Bool
  | .nil => true
  | .cons _ v ps => cleanV v && cleanE ps
end

/-- Navigation along a key path through nested mappings. -/
def atPath : Option Value → List String → Option Value
  | v, [] => v
  | some (.dict d), k :: ks => atPath (dget d k) ks
  | _, _ => Option.none

/-- Navigation along a key path into the result of an upgrade. -/
def okAt : Except String Entries → List String → Option Value
  | .ok d, path => atPath (some (.dict d)) path
  | .error _, _ => Option.none

/-- Tests whether a lookup result and a value are both mappings (the guard of
the recursive branch of merge_dict). -/
def bothDicts : Option Value → Value → Bool
  | some (.dict _), .dict _ => true
  | _, _ => false

/-- Document with a merge conflict inside defaults.number.preprocessing: the
pre-existing leaf says "existing", the staged leaf says "staged". -/
def c1doc : Entries := .ofL
  [(PREPROCESSING, Value.obj
      [("number", Value.obj
        [(PREPROCESSING, Value.obj [("missing_value_strategy", .str "staged")])])]),
   (DEFAULTS, Value.obj
      [("number", Value.obj
        [(PREPROCESSING, Value.obj [("missing_value_strategy", .str "existing")])])])]

/-- Document whose hyperopt executor declares no type at all. -/
def c2doc : Entries := .ofL [(HYPEROPT, Value.obj [(EXECUTOR, Value.obj [])])]

/-- Document whose training section carries an eval_batch_size of 0. -/
def c8doc : Entries := .ofL [(TRAINING, Value.obj [(EVAL_BATCH_SIZE, .int 0)])]

/-- Document exercising every migration rule at once, for the witnesses. -/
def sampleDoc : Entries := .ofL
  [(TRAINING, Value.obj [(EVAL_BATCH_SIZE, .int 0)]),
   (INPUT_FEATURES, .list (.ofL
     [Value.obj [(TYPE, .str "numerical"), ("bias", .bool true),
                 ("encoder", Value.obj [("conv_bias", .int 3)])]])),
   (OUTPUT_FEATURES, .list (.ofL [Value.obj [(TYPE, .str "category")]])),
   (HYPEROPT, Value.obj
     [(PARAMETERS, Value.obj [("training.learning_rate", .int 1), ("plain", .int 2)]),
      (SAMPLER, Value.obj [(SEARCH_ALG, Value.obj [(TYPE, .str "bayesopt")]),
                           ("num_samples", .int 10), (SCHEDULER, .str "sched")]),
      (EXECUTOR, Value.obj [(TYPE, .str "serial"), (SEARCH_ALG, .str "from_executor")])]),
   (PREPROCESSING, Value.obj
     [("number", Value.obj [(PREPROCESSING, Value.obj [("mv", .int 1)])]),
      ("other", .int 9)])]

/-- Registry of input feature types used by the witnesses. -/
def sampleRegistry : List String := ["number", "category"]

/-- Result of upgrading sampleDoc (extracted from the upgrade itself). -/
def sampleUpgraded : Entries :=
  match upgrade_deprecated_fields sampleRegistry sampleDoc with
  | .ok d => d
  | .error _ => .nil

/-- The hyperopt section of sampleDoc. -/
def sampleHyperopt : Entries := .ofL
  [(PARAMETERS, Value.obj [("training.learning_rate", .int 1), ("plain", .int 2)]),
   (SAMPLER, Value.obj [(SEARCH_ALG, Value.obj [(TYPE, .str "bayesopt")]),
                        ("num_samples", .int 10), (SCHEDULER, .str "sched")]),
   (EXECUTOR, Value.obj [(TYPE, .str "serial"), (SEARCH_ALG, .str "from_executor")])]

/-- Hyperopt section of the sampler-migration example of the spec. -/
def samplerDoc : Entries := .ofL
  [(SAMPLER, Value.obj [(SEARCH_ALG, Value.obj [(TYPE, .str "bayesopt")]),
                        ("num_samples", .int 10)]),
   (EXECUTOR, Value.obj [(TYPE, .str RAY)])]

/-- Document exercising the preprocessing relocation on its own. -/
def preprocessingDoc : Entries := .ofL
  [(PREPROCESSING, Value.obj
     [("number", Value.obj [(PREPROCESSING, Value.obj [("mv", .int 1)])]),
      ("other", .int 9)]),
   ("unrelated", .str "kept")]

/-- Result of the preprocessing relocation on preprocessingDoc. -/
def preprocessingUpgraded : Entries :=
  match upgrade_preprocessing ["number"] preprocessingDoc with
  | .ok d => d
  | .error _ => .nil

/-- The sampler section of samplerDoc. -/
def samplerS : Entries := .ofL
  [(SEARCH_ALG, Value.obj [(TYPE, .str "bayesopt")]), ("num_samples", .int 10)]

/-- The executor section of samplerDoc. -/
def samplerEx : Entries := .ofL [(TYPE, .str RAY)]

/-- Result of the sampler migration on samplerDoc. -/
def samplerRes : Entries :=
  match hyperoptSamplerStage samplerDoc with
  | .ok d => d
  | .error _ => .nil

/-- Result of the preprocessing relocation on the merge-conflict document. -/
def c1res : Entries :=
  match upgrade_preprocessing ["number"] c1doc with
  | .ok d => d
  | .error _ => .nil

/-
Basic lemmas about the mapping operations.
-/

theorem entriesInd {motive : Entries → Prop} (hnil : motive .nil)
    (hcons : ∀ k v ps, motive ps → motive (.cons k v ps)) : ∀ d, motive d
  | .nil => hnil
  | .cons k v ps => hcons k v ps (entriesInd hnil hcons ps)

theorem valueListInd {motive : ValueList → Prop} (hnil : motive .nil)
    (hcons : ∀ v vs, motive vs → motive (.cons v vs)) : ∀ l, motive l
  | .nil => hnil
  | .cons v vs => hcons v vs (valueListInd hnil hcons vs)

theorem dget_dset_self (d : Entries) (k : String) (v : Value) :
    dget (dset d k v) k = some v := by
  induction d using entriesInd with
  | hnil => simp [dset, dget]
  | hcons k0 w ps ih =>
      by_cases h : k0 = k
      · subst h; simp [dset, dget]
      · simp [dset, dget, h, ih]

theorem dget_dset_ne (d : Entries) {k k' : String} (v : Value) (hne : k' ≠ k) :
    dget (dset d k v) k' = dget d k' := by
  have hkk : ¬ k = k' := fun h => hne h.symm
  induction d using entriesInd with
  | hnil => simp [dset, dget, hkk]
  | hcons k0 w ps ih =>
      by_cases h : k0 = k
      · subst h
        simp [dset, dget, hkk]
      · simp [dset, dget, h, ih]

theorem dget_ddel_self (d : Entries) (k : String) : dget (ddel d k) k = Option.none := by
  induction d using entriesInd with
  | hnil => simp [ddel, dget]
  | hcons k0 w ps ih =>
      by_cases h : k0 = k
      · simp [ddel, dget, h, ih]
      · simp [ddel, dget, h, ih]

theorem dget_ddel_ne (d : Entries) {k k' : String} (hne : k' ≠ k) :
    dget (ddel d k) k' = dget d k' := by
  have hkk : ¬ k = k' := fun h => hne h.symm
  induction d using entriesInd with
  | hnil => simp [ddel]
  | hcons k0 w ps ih =>
      by_cases h : k0 = k
      · subst h
        simp [ddel, dget, hkk, ih]
      · simp [ddel, dget, h, ih]

theorem dset_same {d : Entries} {k : String} {v : Value} (h : dget d k = some v) :
    dset d k v = d := by
  induction d using entriesInd with
  | hnil => simp [dget] at h
  | hcons k0 w ps ih =>
      by_cases hk : k0 = k
      · subst hk
        simp [dget] at h
        simp [dset, h]
      · simp [dget, hk] at h
        simp [dset, hk, ih h]

theorem dmem_dset_self (d : Entries) (k : String) (v : Value) :
    dmem (dset d k v) k = true := by
  simp [dmem, dget_dset_self]

theorem dmem_dset_ne (d : Entries) {k k' : String} (v : Value) (hne : k' ≠ k) :
    dmem (dset d k v) k' = dmem d k' := by
  simp [dmem, dget_dset_ne d v hne]

theorem dmem_ddel_self (d : Entries) (k : String) : dmem (ddel d k) k = false := by
  simp [dmem, dget_ddel_self]

theorem dmem_ddel_ne (d : Entries) {k k' : String} (hne : k' ≠ k) :
    dmem (ddel d k) k' = dmem d k' := by
  simp [dmem, dget_ddel_ne d hne]

theorem dgetD_of_dget {d : Entries} {k : String} {v : Value} (h : dget d k = some v) :
    dgetD d k = v := by
  simp [dgetD, h]

theorem mem_keys_of_dmem {d : Entries} {k : String} (h : dmem d k = true) :
    k ∈ d.toList.map Prod.fst := by
  induction d using entriesInd with
  | hnil => simp [dmem, dget] at h
  | hcons k0 w ps ih =>
      by_cases hk : k0 = k
      · subst hk; simp [Entries.toList]
      · simp [dmem, dget, hk] at h
        have := ih (by simp [dmem, h])
        simp [Entries.toList]
        right
        simpa using this

theorem dget_eq_none_of_dmem_false {d : Entries} {k : String} (h : dmem d k = false) :
    dget d k = Option.none := by
  simp [dmem] at h
  exact Option.eq_none_of_isNone (by simp [h])

theorem dget_eq_some_of_dmem {d : Entries} {k : String} (h : dmem d k = true) :
    dget d k = some (dgetD d k) := by
  simp [dmem] at h
  obtain ⟨v, hv⟩ := Option.isSome_iff_exists.mp h
  simp [hv, dgetD]

/-
Lemmas about renameKey and _upgrade_use_bias.
-/

theorem renameKey_dget_old {d : Entries} {old new : String} :
    dget (renameKey d old new) old = Option.none := by
  unfold renameKey
  by_cases h : dmem d old
  · simp [h, dget_ddel_self]
  · simp [h]
    exact dget_eq_none_of_dmem_false (by simpa using h)

theorem renameKey_dget_new {d : Entries} {old new : String} (hne : old ≠ new) :
    dget (renameKey d old new) new =
      if dmem d old then dget d old else dget d new := by
  unfold renameKey
  by_cases h : dmem d old
  · rw [if_pos h, if_pos h, dget_ddel_ne _ (fun hc => hne hc.symm), dget_dset_self,
      dget_eq_some_of_dmem h]
  · simp [h]

theorem renameKey_dget_other {d : Entries} {old new k : String}
    (hko : k ≠ old) (hkn : k ≠ new) :
    dget (renameKey d old new) k = dget d k := by
  unfold renameKey
  by_cases h : dmem d old
  · rw [if_pos h, dget_ddel_ne _ hko, dget_dset_ne _ _ hkn]
  · simp [h]

theorem renameKey_dmem_old {d : Entries} {old new : String} :
    dmem (renameKey d old new) old = false := by
  simp [dmem, renameKey_dget_old]

theorem renameKey_dmem_other {d : Entries} {old new k : String}
    (hko : k ≠ old) (hkn : k ≠ new) :
    dmem (renameKey d old new) k = dmem d k := by
  simp [dmem, renameKey_dget_other hko hkn]

theorem renameKey_id_of_absent {d : Entries} {old new : String} (h : dmem d old = false) :
    renameKey d old new = d := by
  simp [renameKey, h]

theorem upgrade_use_bias_dmem_bias (d : Entries) :
    dmem (upgrade_use_bias d) "bias" = false := by
  unfold upgrade_use_bias
  rw [renameKey_dmem_other (by decide) (by decide),
    renameKey_dmem_other (by decide) (by decide)]
  exact renameKey_dmem_old

theorem upgrade_use_bias_dmem_conv (d : Entries) :
    dmem (upgrade_use_bias d) "conv_bias" = false := by
  unfold upgrade_use_bias
  rw [renameKey_dmem_other (by decide) (by decide)]
  exact renameKey_dmem_old

theorem upgrade_use_bias_dmem_default (d : Entries) :
    dmem (upgrade_use_bias d) "default_bias" = false := by
  exact renameKey_dmem_old

theorem noBadKeys_upgrade_use_bias (d : Entries) :
    noBadKeys (upgrade_use_bias d) = true := by
  simp [noBadKeys, upgrade_use_bias_dmem_bias, upgrade_use_bias_dmem_conv,
    upgrade_use_bias_dmem_default]

theorem upgrade_use_bias_dget_other {d : Entries} {k : String}
    (h1 : k ≠ "bias") (h2 : k ≠ "use_bias") (h3 : k ≠ "conv_bias")
    (h4 : k ≠ "conv_use_bias") (h5 : k ≠ "default_bias") (h6 : k ≠ "default_use_bias") :
    dget (upgrade_use_bias d) k = dget d k := by
  unfold upgrade_use_bias
  rw [renameKey_dget_other h5 h6, renameKey_dget_other h3 h4, renameKey_dget_other h1 h2]

theorem upgrade_use_bias_id_of_noBadKeys {d : Entries} (h : noBadKeys d = true) :
    upgrade_use_bias d = d := by
  unfold noBadKeys at h
  rw [Bool.and_eq_true, Bool.and_eq_true] at h
  obtain ⟨⟨h1, h2⟩, h3⟩ := h
  rw [Bool.not_eq_true'] at h1 h2 h3
  unfold upgrade_use_bias
  rw [renameKey_id_of_absent h1, renameKey_id_of_absent h2, renameKey_id_of_absent h3]

/-
Cleanliness is preserved by the map operations and established by the walk.
-/

theorem cleanV_of_dget {d : Entries} {k : String} {v : Value}
    (hc : cleanE d = true) (h : dget d k = some v) : cleanV v = true := by
  induction d using entriesInd with
  | hnil => simp [dget] at h
  | hcons k0 w ps ih =>
      rw [cleanE, Bool.and_eq_true] at hc
      by_cases hk : k0 = k
      · simp [dget, hk] at h
        exact h ▸ hc.1
      · simp [dget, hk] at h
        exact ih hc.2 h

theorem cleanE_dset {d : Entries} {k : String} {v : Value}
    (hc : cleanE d = true) (hv : cleanV v = true) : cleanE (dset d k v) = true := by
  induction d using entriesInd with
  | hnil => simp [dset, cleanE, hv]
  | hcons k0 w ps ih =>
      rw [cleanE, Bool.and_eq_true] at hc
      by_cases hk : k0 = k
      · simp [dset, hk, cleanE, hv, hc.2]
      · simp [dset, hk, cleanE, hc.1, ih hc.2]

theorem cleanE_ddel {d : Entries} {k : String} (hc : cleanE d = true) :
    cleanE (ddel d k) = true := by
  induction d using entriesInd with
  | hnil => simp [ddel, cleanE]
  | hcons k0 w ps ih =>
      rw [cleanE, Bool.and_eq_true] at hc
      by_cases hk : k0 = k
      · simp [ddel, hk, ih hc.2]
      · simp [ddel, hk, cleanE, hc.1, ih hc.2]

theorem cleanE_renameKey {d : Entries} {old new : String} (hc : cleanE d = true) :
    cleanE (renameKey d old new) = true := by
  unfold renameKey
  by_cases h : dmem d old
  · have hv : cleanV (dgetD d old) = true :=
      cleanV_of_dget hc (dget_eq_some_of_dmem h)
    simp [h, cleanE_ddel (cleanE_dset hc hv)]
  · simpa [h] using hc

theorem cleanE_upgrade_use_bias {d : Entries} (hc : cleanE d = true) :
    cleanE (upgrade_use_bias d) = true := by
  unfold upgrade_use_bias
  exact cleanE_renameKey (cleanE_renameKey (cleanE_renameKey hc))

theorem dget_traverseEntries (g : Entries → Entries) (ps : Entries) (k : String) :
    dget (traverseEntries g ps) k = Option.map (traverseValue g) (dget ps k) := by
  induction ps using entriesInd with
  | hnil => simp [traverseEntries, dget]
  | hcons k0 w ps ih =>
      by_cases hk : k0 = k
      · simp [traverseEntries, dget, hk]
      · simp [traverseEntries, dget, hk, ih]

mutual
theorem cleanV_traverse : ∀ v : Value, cleanV (traverseValue upgrade_use_bias v) = true
  | .str _ => rfl
  | .int _ => rfl
  | .bool _ => rfl
  | .null => rfl
  | .list vs => by
      rw [traverseValue, cleanV]
      exact cleanL_traverse vs
  | .dict ps => by
      rw [traverseValue, cleanV, Bool.and_eq_true]
      exact ⟨noBadKeys_upgrade_use_bias _, cleanE_upgrade_use_bias (cleanE_traverse ps)⟩
theorem cleanL_traverse : ∀ vs : ValueList, cleanL (traverseList upgrade_use_bias vs) = true
  | .nil => rfl
  | .cons v vs => by
      rw [traverseList, cleanL, Bool.and_eq_true]
      exact ⟨cleanV_traverse v, cleanL_traverse vs⟩
theorem cleanE_traverse : ∀ ps : Entries, cleanE (traverseEntries upgrade_use_bias ps) = true
  | .nil => rfl
  | .cons k v ps => by
      rw [traverseEntries, cleanE, Bool.and_eq_true]
      exact ⟨cleanV_traverse v, cleanE_traverse ps⟩
end

mutual
theorem traverseValue_id_of_clean : ∀ v : Value, cleanV v = true →
    traverseValue upgrade_use_bias v = v
  | .str _, _ => rfl
  | .int _, _ => rfl
  | .bool _, _ => rfl
  | .null, _ => rfl
  | .list vs, h => by
      rw [cleanV] at h
      rw [traverseValue, traverseList_id_of_clean vs h]
  | .dict ps, h => by
      rw [cleanV, Bool.and_eq_true] at h
      rw [traverseValue, traverseEntries_id_of_clean ps h.2,
        upgrade_use_bias_id_of_noBadKeys h.1]
theorem traverseList_id_of_clean : ∀ vs : ValueList, cleanL vs = true →
    traverseList upgrade_use_bias vs = vs
  | .nil, _ => rfl
  | .cons v vs, h => by
      rw [cleanL, Bool.and_eq_true] at h
      rw [traverseList, traverseValue_id_of_clean v h.1, traverseList_id_of_clean vs h.2]
theorem traverseEntries_id_of_clean : ∀ ps : Entries, cleanE ps = true →
    traverseEntries upgrade_use_bias ps = ps
  | .nil, _ => rfl
  | .cons k v ps, h => by
      rw [cleanE, Bool.and_eq_true] at h
      rw [traverseEntries, traverseValue_id_of_clean v h.1,
        traverseEntries_id_of_clean ps h.2]
end

/-
Lemmas about _upgrade_feature and the loop over the feature lists.
-/

theorem traverseValue_eq_str_iff (g : Entries → Entries) (v : Value) (s : String) :
    traverseValue g v = .str s ↔ v = .str s := by
  cases v <;> simp [traverseValue]

theorem cleanE_upgrade_feature (f : Entries) : cleanE (upgrade_feature f) = true := by
  unfold upgrade_feature
  exact cleanE_upgrade_use_bias (cleanE_traverse _)

theorem noBadKeys_upgrade_feature (f : Entries) : noBadKeys (upgrade_feature f) = true := by
  unfold upgrade_feature
  exact noBadKeys_upgrade_use_bias _

theorem upgrade_feature_type_not_numerical (f : Entries) :
    dget (upgrade_feature f) TYPE ≠ some (.str "numerical") := by
  unfold upgrade_feature
  rw [upgrade_use_bias_dget_other (by decide) (by decide) (by decide) (by decide)
    (by decide) (by decide)]
  rw [dget_traverseEntries]
  by_cases hT : dget f TYPE = some (.str "numerical")
  · rw [if_pos hT, dget_dset_self]
    intro hc
    simp [traverseValue, NUMBER] at hc
  · rw [if_neg hT]
    intro hc
    cases hv : dget f TYPE with
    | none => rw [hv] at hc; simp at hc
    | some v =>
        rw [hv] at hc
        simp at hc
        exact hT (hv ▸ congrArg some ((traverseValue_eq_str_iff _ v _).mp hc))

theorem upgrade_feature_idem (f : Entries) :
    upgrade_feature (upgrade_feature f) = upgrade_feature f := by
  conv_lhs => rw [upgrade_feature]
  rw [if_neg (upgrade_feature_type_not_numerical f)]
  rw [traverseEntries_id_of_clean _ (cleanE_upgrade_feature f),
    upgrade_use_bias_id_of_noBadKeys (noBadKeys_upgrade_feature f)]

theorem upgradeFeatureList_idem :
    ∀ {l l' : ValueList}, upgradeFeatureList l = .ok l' → upgradeFeatureList l' = .ok l'
  | .nil, l', h => by
      rw [upgradeFeatureList] at h
      cases h
      rfl
  | .cons v vs, l', h => by
      cases v with
      | dict fd =>
          rw [upgradeFeatureList] at h
          cases hvs : upgradeFeatureList vs with
          | ok vs' =>
              rw [hvs] at h
              simp only [Bind.bind, Except.bind] at h
              cases h
              rw [upgradeFeatureList]
              simp only [Bind.bind, Except.bind]
              rw [upgradeFeatureList_idem hvs, upgrade_feature_idem]
          | error e =>
              rw [hvs] at h
              simp only [Bind.bind, Except.bind] at h
              cases h
      | str s => simp [upgradeFeatureList] at h
      | int n => simp [upgradeFeatureList] at h
      | bool b => simp [upgradeFeatureList] at h
      | null => simp [upgradeFeatureList] at h
      | list vs0 => simp [upgradeFeatureList] at h

/-
Lemmas about the parameter renaming of _upgrade_hyperopt.
-/

theorem hasTrainingDot_trainer (s : String) : hasTrainingDot ("trainer." ++ s) = false := by
  unfold hasTrainingDot
  show List.isPrefixOf (String.toList "training.") (("trainer." ++ s).data) = false
  rw [String.data_append]
  show List.isPrefixOf ['t','r','a','i','n','i','n','g','.']
      (['t','r','a','i','n','e','r','.'] ++ s.data) = false
  simp [List.isPrefixOf]

theorem dmem_of_mem_toList {d : Entries} {kv : String × Value} (h : kv ∈ d.toList) :
    dmem d kv.1 = true := by
  induction d using entriesInd with
  | hnil => simp [Entries.toList] at h
  | hcons k0 w ps ih =>
      rw [Entries.toList] at h
      rcases List.mem_cons.mp h with h | h
      · subst h; simp [dmem, dget]
      · by_cases hk : k0 = kv.1
        · simp [dmem, dget, hk]
        · simpa [dmem, dget, hk] using ih h

theorem renameHparam_fold_no_training
    (l : List (String × Value)) (acc : Entries)
    (hinv : ∀ k, dmem acc k = true → hasTrainingDot k = true → k ∈ l.map Prod.fst) :
    ∀ k, dmem (l.foldl renameHparam acc) k = true → hasTrainingDot k = false := by
  induction l generalizing acc with
  | nil =>
      intro k hk
      cases hTD : hasTrainingDot k
      · rfl
      · exact absurd (hinv k hk hTD) (by simp)
  | cons kv rest ih =>
      intro k hk
      rw [List.foldl_cons] at hk
      refine ih (renameHparam acc kv) ?_ k hk
      intro k' hk' hTD'
      unfold renameHparam at hk'
      by_cases hkv : hasTrainingDot kv.1
      · rw [if_pos hkv] at hk'
        have hne0 : k' ≠ kv.1 := by
          intro he
          rw [he, dmem_ddel_self] at hk'
          cases hk'
        rw [dmem_ddel_ne _ hne0] at hk'
        have hnenew : k' ≠ "trainer." ++ String.drop kv.1 9 := by
          intro he
          rw [he, hasTrainingDot_trainer] at hTD'
          cases hTD'
        rw [dmem_dset_ne _ _ hnenew] at hk'
        have := hinv k' hk' hTD'
        simpa [hne0] using this
      · rw [if_neg hkv] at hk'
        have := hinv k' hk' hTD'
        have hne0 : k' ≠ kv.1 := by
          intro he
          rw [he] at hTD'
          exact hkv hTD'
        simpa [hne0] using this

theorem dmem_renameTrainingParams_no_training {ps : Entries} {k : String}
    (h : dmem (renameTrainingParams ps) k = true) : hasTrainingDot k = false := by
  refine renameHparam_fold_no_training ps.toList ps ?_ k h
  intro k' hk' _
  simpa using mem_keys_of_dmem hk'

theorem foldl_renameHparam_id (l : List (String × Value)) (acc : Entries)
    (h : ∀ kv ∈ l, hasTrainingDot kv.1 = false) :
    l.foldl renameHparam acc = acc := by
  induction l generalizing acc with
  | nil => rfl
  | cons kv rest ih =>
      rw [List.foldl_cons]
      rw [show renameHparam acc kv = acc from by
        unfold renameHparam
        rw [if_neg (by simp [h kv (by simp)])]]
      exact ih acc (fun kv' hm => h kv' (by simp [hm]))

theorem renameTrainingParams_idem (ps : Entries) :
    renameTrainingParams (renameTrainingParams ps) = renameTrainingParams ps := by
  unfold renameTrainingParams
  apply foldl_renameHparam_id
  intro kv hm
  exact dmem_renameTrainingParams_no_training (dmem_of_mem_toList hm)

/-
Lemmas about the parameters block of _upgrade_hyperopt.
-/

theorem paramsStage_shape {h h1 : Entries} (hk : hyperoptParamsStage h = .ok h1) :
    (dget h PARAMETERS = Option.none ∧ h1 = h) ∨
    ∃ ps, dget h PARAMETERS = some (.dict ps) ∧
      h1 = dset h PARAMETERS (.dict (renameTrainingParams ps)) := by
  unfold hyperoptParamsStage at hk
  cases hp : dget h PARAMETERS with
  | none => rw [hp] at hk; cases hk; exact .inl ⟨rfl, rfl⟩
  | some v =>
      rw [hp] at hk
      cases v with
      | dict ps => cases hk; exact .inr ⟨ps, rfl, rfl⟩
      | str s => cases hk
      | int n => cases hk
      | bool b => cases hk
      | null => cases hk
      | list vs => cases hk

theorem paramsStage_frame {h h1 : Entries} (hk : hyperoptParamsStage h = .ok h1)
    {k : String} (hne : k ≠ PARAMETERS) : dget h1 k = dget h k := by
  rcases paramsStage_shape hk with ⟨_, rfl⟩ | ⟨ps, _, rfl⟩
  · rfl
  · exact dget_dset_ne _ _ hne

theorem paramsStage_post {h h1 : Entries} (hk : hyperoptParamsStage h = .ok h1) :
    dget h1 PARAMETERS = Option.none ∨
    ∃ ps, dget h1 PARAMETERS = some (.dict (renameTrainingParams ps)) := by
  rcases paramsStage_shape hk with ⟨hp, rfl⟩ | ⟨ps, _, rfl⟩
  · exact .inl hp
  · exact .inr ⟨ps, dget_dset_self _ _ _⟩

theorem paramsStage_second {h : Entries}
    (hc : dget h PARAMETERS = Option.none ∨
      ∃ ps, dget h PARAMETERS = some (.dict ps) ∧ renameTrainingParams ps = ps) :
    hyperoptParamsStage h = .ok h := by
  unfold hyperoptParamsStage
  rcases hc with hp | ⟨ps, hp, hid⟩
  · rw [hp]
  · rw [hp]
    show Except.ok (dset h PARAMETERS (.dict (renameTrainingParams ps))) = Except.ok h
    rw [hid, dset_same hp]

/-
Lemmas about the executor block of _upgrade_hyperopt.
-/

theorem fixExecutorType_type (e : Entries) :
    dgetD (fixExecutorType e) TYPE = .null ∨ dgetD (fixExecutorType e) TYPE = .str RAY := by
  unfold fixExecutorType
  by_cases hc : dgetD e TYPE ≠ .null ∧ dgetD e TYPE ≠ .str RAY
  · rw [if_pos hc]
    exact .inr (by simp [dgetD, dget_dset_self])
  · rw [if_neg hc]
    rcases Decidable.not_and_iff_or_not.mp hc with hn | hn
    · exact .inl (Decidable.not_not.mp hn)
    · exact .inr (Decidable.not_not.mp hn)

theorem fixExecutorType_id {e : Entries}
    (hc : dgetD e TYPE = .null ∨ dgetD e TYPE = .str RAY) : fixExecutorType e = e := by
  unfold fixExecutorType
  rcases hc with hc | hc <;> simp [hc]

theorem fixExecutorType_dget_other {e : Entries} {k : String} (hne : k ≠ TYPE) :
    dget (fixExecutorType e) k = dget e k := by
  unfold fixExecutorType
  by_cases hc : dgetD e TYPE ≠ .null ∧ dgetD e TYPE ≠ .str RAY
  · rw [if_pos hc, dget_dset_ne _ _ hne]
  · rw [if_neg hc]

theorem promoteExecutorSearchAlg_exec (h e : Entries) :
    dget (promoteExecutorSearchAlg h e) EXECUTOR =
      some (.dict (if dmem e SEARCH_ALG then ddel e SEARCH_ALG else e)) := by
  unfold promoteExecutorSearchAlg
  cases hc : dmem e SEARCH_ALG <;> simp [hc, dget_dset_self]

theorem promoteExecutorSearchAlg_frame (h e : Entries) {k : String}
    (h1 : k ≠ EXECUTOR) (h2 : k ≠ SEARCH_ALG) :
    dget (promoteExecutorSearchAlg h e) k = dget h k := by
  unfold promoteExecutorSearchAlg
  split
  · rw [dget_dset_ne _ _ h1]
    split
    · rw [dget_dset_ne _ _ h2]
    · rfl
  · rw [dget_dset_ne _ _ h1]

theorem promoteExecutorSearchAlg_sa (h e : Entries) :
    dget (promoteExecutorSearchAlg h e) SEARCH_ALG =
      if dmem e SEARCH_ALG ∧ ¬ dmem h SEARCH_ALG then dget e SEARCH_ALG
      else dget h SEARCH_ALG := by
  unfold promoteExecutorSearchAlg
  split
  · next hc =>
      rw [dget_dset_ne _ _ (show SEARCH_ALG ≠ EXECUTOR from by decide)]
      split
      · next hd =>
          rw [dget_dset_self, if_pos ⟨hc, hd⟩]
          exact (dget_eq_some_of_dmem hc).symm
      · next hd =>
          rw [if_neg (fun hp => hd hp.2)]
  · next hc =>
      rw [dget_dset_ne _ _ (show SEARCH_ALG ≠ EXECUTOR from by decide),
        if_neg (fun hp => hc hp.1)]

theorem execStage_shape {h h2 : Entries} (hk : hyperoptExecutorStage h = .ok h2) :
    (dget h EXECUTOR = Option.none ∧
      h2 = dset h EXECUTOR (.dict (.cons TYPE (.str RAY) .nil))) ∨
    ∃ e, dget h EXECUTOR = some (.dict e) ∧
      h2 = promoteExecutorSearchAlg h (fixExecutorType e) := by
  unfold hyperoptExecutorStage at hk
  cases he : dget h EXECUTOR with
  | none => rw [he] at hk; cases hk; exact .inl ⟨rfl, rfl⟩
  | some v =>
      rw [he] at hk
      cases v with
      | dict e => cases hk; exact .inr ⟨e, rfl, rfl⟩
      | str s => cases hk
      | int n => cases hk
      | bool b => cases hk
      | null => cases hk
      | list vs => cases hk

theorem execStage_post {h h2 : Entries} (hk : hyperoptExecutorStage h = .ok h2) :
    ∃ e2, dget h2 EXECUTOR = some (.dict e2) ∧
      (dgetD e2 TYPE = .null ∨ dgetD e2 TYPE = .str RAY) ∧
      dmem e2 SEARCH_ALG = false := by
  rcases execStage_shape hk with ⟨_, rfl⟩ | ⟨e, _, rfl⟩
  · refine ⟨_, dget_dset_self _ _ _, .inr (by decide), by decide⟩
  · refine ⟨_, promoteExecutorSearchAlg_exec _ _, ?_, ?_⟩
    · by_cases hc : dmem (fixExecutorType e) SEARCH_ALG
      · rw [if_pos hc]
        have := fixExecutorType_type e
        rwa [show dgetD (ddel (fixExecutorType e) SEARCH_ALG) TYPE
            = dgetD (fixExecutorType e) TYPE from by
          rw [dgetD, dgetD, dget_ddel_ne _ (by decide : TYPE ≠ SEARCH_ALG)]]
      · rw [if_neg hc]
        exact fixExecutorType_type e
    · by_cases hc : dmem (fixExecutorType e) SEARCH_ALG
      · rw [if_pos hc, dmem_ddel_self]
      · rw [if_neg hc]
        simpa using hc

theorem execStage_frame {h h2 : Entries} (hk : hyperoptExecutorStage h = .ok h2)
    {k : String} (h1 : k ≠ EXECUTOR) (h2k : k ≠ SEARCH_ALG) : dget h2 k = dget h k := by
  rcases execStage_shape hk with ⟨_, rfl⟩ | ⟨e, _, rfl⟩
  · exact dget_dset_ne _ _ h1
  · exact promoteExecutorSearchAlg_frame _ _ h1 h2k

theorem execStage_second {h : Entries} {e : Entries}
    (he : dget h EXECUTOR = some (.dict e))
    (hty : dgetD e TYPE = .null ∨ dgetD e TYPE = .str RAY)
    (hsa : dmem e SEARCH_ALG = false) :
    hyperoptExecutorStage h = .ok h := by
  unfold hyperoptExecutorStage
  rw [he]
  show Except.ok (promoteExecutorSearchAlg h (fixExecutorType e)) = Except.ok h
  rw [fixExecutorType_id hty]
  unfold promoteExecutorSearchAlg
  rw [if_neg (by simp [hsa]), dset_same he]

/-
Lemmas about the sampler block of _upgrade_hyperopt.
-/

theorem dmem_congr {d d' : Entries} {k : String} (h : dget d k = dget d' k) :
    dmem d k = dmem d' k := by
  simp [dmem, h]

theorem samplerCopy_spec {h s : Entries} {key : String} {h' : Entries} {ex : Entries}
    (hex : dget h EXECUTOR = some (.dict ex))
    (hk : samplerCopy h s key = .ok h') :
    ∃ ex', dget h' EXECUTOR = some (.dict ex') ∧
      dget ex' key =
        (if dmem s key ∧ dmem ex key = false then dget s key else dget ex key) ∧
      (∀ k', k' ≠ key → dget ex' k' = dget ex k') ∧
      (∀ k, k ≠ EXECUTOR → dget h' k = dget h k) := by
  unfold samplerCopy at hk
  cases hs : dmem s key with
  | false =>
      rw [hs] at hk
      simp only [Bool.false_eq_true, if_false] at hk
      cases hk
      exact ⟨ex, hex, by simp [hs], fun _ _ => rfl, fun _ _ => rfl⟩
  | true =>
      rw [hs] at hk
      simp only [if_true] at hk
      rw [hex] at hk
      simp only [] at hk
      cases hki : dmem ex key with
      | false =>
          rw [hki] at hk
          simp only [Bool.false_eq_true, not_false_iff, if_pos, if_true] at hk
          cases hk
          refine ⟨dset ex key (dgetD s key), dget_dset_self _ _ _, ?_, ?_, ?_⟩
          · rw [dget_dset_self, if_pos (by simp [hs, hki]),
              dget_eq_some_of_dmem hs]
          · intro k' hk'
            exact dget_dset_ne _ _ hk'
          · intro k hkk
            exact dget_dset_ne _ _ hkk
      | true =>
          rw [hki] at hk
          simp only [not_true, if_neg, if_false] at hk
          cases hk
          exact ⟨ex, hex, by simp [hki], fun _ _ => rfl, fun _ _ => rfl⟩

theorem promoteSamplerSearchAlg_frame (h s : Entries) {k : String} (hne : k ≠ SEARCH_ALG) :
    dget (promoteSamplerSearchAlg h s) k = dget h k := by
  unfold promoteSamplerSearchAlg
  split
  · exact dget_dset_ne _ _ hne
  · rfl

theorem promoteSamplerSearchAlg_sa (h s : Entries) :
    dget (promoteSamplerSearchAlg h s) SEARCH_ALG =
      if dmem s SEARCH_ALG ∧ ¬ dmem h SEARCH_ALG then dget s SEARCH_ALG
      else dget h SEARCH_ALG := by
  unfold promoteSamplerSearchAlg
  split
  · next hc =>
      rw [dget_dset_self]
      exact (dget_eq_some_of_dmem hc.1).symm
  · rfl

theorem samplerStage_skip {h : Entries} (hs : dget h SAMPLER = Option.none) :
    hyperoptSamplerStage h = .ok h := by
  unfold hyperoptSamplerStage
  rw [hs]

theorem samplerStage_shape {h h' : Entries} (hk : hyperoptSamplerStage h = .ok h') :
    (dget h SAMPLER = Option.none ∧ h' = h) ∨
    ∃ s h2 h3, dget h SAMPLER = some (.dict s) ∧
      samplerCopy (promoteSamplerSearchAlg h s) s "num_samples" = .ok h2 ∧
      samplerCopy h2 s SCHEDULER = .ok h3 ∧ h' = ddel h3 SAMPLER := by
  unfold hyperoptSamplerStage at hk
  cases hs : dget h SAMPLER with
  | none => rw [hs] at hk; cases hk; exact .inl ⟨rfl, rfl⟩
  | some v =>
      rw [hs] at hk
      cases v with
      | dict s =>
          have hk2 : (match samplerCopy (promoteSamplerSearchAlg h s) s "num_samples" with
            | Except.ok h2 =>
                (match samplerCopy h2 s SCHEDULER with
                  | Except.ok h3 => Except.ok (ddel h3 SAMPLER)
                  | Except.error e => (Except.error e : Except String Entries))
            | Except.error e => Except.error e) = Except.ok h' := hk
          cases hc1 : samplerCopy (promoteSamplerSearchAlg h s) s "num_samples" with
          | ok h2 =>
              rw [hc1] at hk2
              have hk3 : (match samplerCopy h2 s SCHEDULER with
                | Except.ok h3 => Except.ok (ddel h3 SAMPLER)
                | Except.error e => (Except.error e : Except String Entries)) =
                  Except.ok h' := hk2
              cases hc2 : samplerCopy h2 s SCHEDULER with
              | ok h3 =>
                  rw [hc2] at hk3
                  cases hk3
                  exact .inr ⟨s, h2, h3, rfl, hc1, hc2, rfl⟩
              | error e =>
                  rw [hc2] at hk3
                  cases hk3
          | error e =>
              rw [hc1] at hk2
              have hk3 : (Except.error e : Except String Entries) = Except.ok h' := hk2
              cases hk3
      | str a => cases hk
      | int a => cases hk
      | bool a => cases hk
      | null => cases hk
      | list a => cases hk

theorem samplerStage_spec {h h' s ex : Entries}
    (hs : dget h SAMPLER = some (.dict s))
    (hex : dget h EXECUTOR = some (.dict ex))
    (hk : hyperoptSamplerStage h = .ok h') :
    dget h' SAMPLER = Option.none ∧
    dget h' SEARCH_ALG =
      (if dmem s SEARCH_ALG ∧ ¬ dmem h SEARCH_ALG then dget s SEARCH_ALG
       else dget h SEARCH_ALG) ∧
    (∃ ex', dget h' EXECUTOR = some (.dict ex') ∧
      dget ex' "num_samples" =
        (if dmem s "num_samples" ∧ dmem ex "num_samples" = false then dget s "num_samples"
         else dget ex "num_samples") ∧
      dget ex' SCHEDULER =
        (if dmem s SCHEDULER ∧ dmem ex SCHEDULER = false then dget s SCHEDULER
         else dget ex SCHEDULER) ∧
      (∀ k', k' ≠ "num_samples" → k' ≠ SCHEDULER → dget ex' k' = dget ex k')) ∧
    (∀ k, k ≠ SEARCH_ALG → k ≠ EXECUTOR → k ≠ SAMPLER → dget h' k = dget h k) := by
  rcases samplerStage_shape hk with ⟨hnone, _⟩ | ⟨s0, h2, h3, hs0, hc1, hc2, rfl⟩
  · rw [hs] at hnone; cases hnone
  · rw [hs] at hs0
    injection hs0 with h1
    injection h1 with h2
    subst h2
    have hex0 : dget (promoteSamplerSearchAlg h s) EXECUTOR = some (.dict ex) := by
      rw [promoteSamplerSearchAlg_frame h s (by decide)]; exact hex
    obtain ⟨ex1, hex1, hval1, hpres1, hframe1⟩ := samplerCopy_spec hex0 hc1
    obtain ⟨ex2, hex2, hval2, hpres2, hframe2⟩ := samplerCopy_spec hex1 hc2
    refine ⟨dget_ddel_self _ _, ?_, ⟨ex2, ?_, ?_, ?_, ?_⟩, ?_⟩
    · rw [dget_ddel_ne _ (by decide : SEARCH_ALG ≠ SAMPLER),
        hframe2 _ (by decide), hframe1 _ (by decide),
        promoteSamplerSearchAlg_sa]
    · rw [dget_ddel_ne _ (by decide : EXECUTOR ≠ SAMPLER)]
      exact hex2
    · rw [hpres2 _ (by decide), hval1]
    · rw [hval2, hpres1 _ (by decide),
        dmem_congr (hpres1 SCHEDULER (by decide))]
    · intro k' hk1 hk2
      rw [hpres2 _ hk2, hpres1 _ hk1]
    · intro k hk1 hk2 hk3
      rw [dget_ddel_ne _ hk3, hframe2 _ hk2, hframe1 _ hk2,
        promoteSamplerSearchAlg_frame _ _ hk1]

theorem samplerStage_post {h h' ex : Entries}
    (hex : dget h EXECUTOR = some (.dict ex))
    (hk : hyperoptSamplerStage h = .ok h') :
    dget h' SAMPLER = Option.none ∧
    (∃ ex', dget h' EXECUTOR = some (.dict ex') ∧
      dget ex' TYPE = dget ex TYPE ∧ dmem ex' SEARCH_ALG = dmem ex SEARCH_ALG) ∧
    (∀ k, k ≠ SEARCH_ALG → k ≠ EXECUTOR → k ≠ SAMPLER → dget h' k = dget h k) := by
  rcases samplerStage_shape hk with ⟨hnone, rfl⟩ | ⟨s, h2, h3, hs0, hc1, hc2, rfl⟩
  · exact ⟨hnone, ⟨ex, hex, rfl, rfl⟩, fun _ _ _ _ => rfl⟩
  · have hex0 : dget (promoteSamplerSearchAlg h s) EXECUTOR = some (.dict ex) := by
      rw [promoteSamplerSearchAlg_frame h s (by decide)]; exact hex
    obtain ⟨ex1, hex1, hval1, hpres1, hframe1⟩ := samplerCopy_spec hex0 hc1
    obtain ⟨ex2, hex2, hval2, hpres2, hframe2⟩ := samplerCopy_spec hex1 hc2
    refine ⟨dget_ddel_self _ _, ⟨ex2, ?_, ?_, ?_⟩, ?_⟩
    · rw [dget_ddel_ne _ (by decide : EXECUTOR ≠ SAMPLER)]
      exact hex2
    · rw [hpres2 _ (by decide), hpres1 _ (by decide)]
    · rw [dmem_congr (hpres2 SEARCH_ALG (by decide)),
        dmem_congr (hpres1 SEARCH_ALG (by decide))]
    · intro k hk1 hk2 hk3
      rw [dget_ddel_ne _ hk3, hframe2 _ hk2, hframe1 _ hk2,
        promoteSamplerSearchAlg_frame _ _ hk1]

/-
Lemmas about the default search_alg block of _upgrade_hyperopt.
-/

theorem defaultSearchAlg_mem (h : Entries) :
    dmem (hyperoptDefaultSearchAlg h) SEARCH_ALG = true := by
  unfold hyperoptDefaultSearchAlg
  split
  · exact dmem_dset_self _ _ _
  · next hc => simpa using Decidable.not_not.mp hc

theorem defaultSearchAlg_frame (h : Entries) {k : String} (hne : k ≠ SEARCH_ALG) :
    dget (hyperoptDefaultSearchAlg h) k = dget h k := by
  unfold hyperoptDefaultSearchAlg
  split
  · exact dget_dset_ne _ _ hne
  · rfl

theorem defaultSearchAlg_skip {h : Entries} (hm : dmem h SEARCH_ALG = true) :
    hyperoptDefaultSearchAlg h = h := by
  unfold hyperoptDefaultSearchAlg
  rw [if_neg (by simp [hm])]

/-
Decomposition and idempotence of _upgrade_hyperopt.
-/

theorem upgrade_hyperopt_shape {h h' : Entries} (hk : upgrade_hyperopt h = .ok h') :
    ∃ h1 h2 h3, hyperoptParamsStage h = .ok h1 ∧ hyperoptExecutorStage h1 = .ok h2 ∧
      hyperoptSamplerStage h2 = .ok h3 ∧ h' = hyperoptDefaultSearchAlg h3 := by
  unfold upgrade_hyperopt at hk
  cases hp : hyperoptParamsStage h with
  | error e =>
      rw [hp] at hk
      simp only [Bind.bind, Except.bind] at hk
      cases hk
  | ok h1 =>
      rw [hp] at hk
      simp only [Bind.bind, Except.bind] at hk
      cases hx : hyperoptExecutorStage h1 with
      | error e =>
          rw [hx] at hk
          simp only [Except.bind] at hk
          cases hk
      | ok h2 =>
          rw [hx] at hk
          simp only [Except.bind] at hk
          cases hsm : hyperoptSamplerStage h2 with
          | error e =>
              rw [hsm] at hk
              simp only [Except.bind] at hk
              cases hk
          | ok h3 =>
              rw [hsm] at hk
              simp only [Except.bind] at hk
              cases hk
              exact ⟨h1, h2, h3, rfl, hx, hsm, rfl⟩

theorem upgrade_hyperopt_idem {h h' : Entries} (hk : upgrade_hyperopt h = .ok h') :
    upgrade_hyperopt h' = .ok h' := by
  obtain ⟨h1, h2, h3, hp, hx, hsm, rfl⟩ := upgrade_hyperopt_shape hk
  obtain ⟨e2, he2, hty2, hsa2⟩ := execStage_post hx
  obtain ⟨hsampler3, ⟨e3, he3, hty3, hsa3⟩, hframe3⟩ := samplerStage_post he2 hsm
  have hpar' : hyperoptParamsStage (hyperoptDefaultSearchAlg h3) = .ok (hyperoptDefaultSearchAlg h3) := by
    apply paramsStage_second
    rw [defaultSearchAlg_frame _ (by decide), hframe3 _ (by decide) (by decide) (by decide),
      execStage_frame hx (by decide) (by decide)]
    rcases paramsStage_post hp with hc | ⟨ps, hc⟩
    · exact .inl hc
    · exact .inr ⟨renameTrainingParams ps, hc, renameTrainingParams_idem ps⟩
  have he4 : dget (hyperoptDefaultSearchAlg h3) EXECUTOR = some (.dict e3) := by
    rw [defaultSearchAlg_frame _ (by decide)]; exact he3
  have hty4 : dgetD e3 TYPE = .null ∨ dgetD e3 TYPE = .str RAY := by
    have heq : dgetD e3 TYPE = dgetD e2 TYPE := by rw [dgetD, dgetD, hty3]
    rw [heq]; exact hty2
  have hsa4 : dmem e3 SEARCH_ALG = false := by rw [hsa3]; exact hsa2
  have hex' : hyperoptExecutorStage (hyperoptDefaultSearchAlg h3) = .ok (hyperoptDefaultSearchAlg h3) :=
    execStage_second he4 hty4 hsa4
  have hsam' : hyperoptSamplerStage (hyperoptDefaultSearchAlg h3) = .ok (hyperoptDefaultSearchAlg h3) := by
    apply samplerStage_skip
    rw [defaultSearchAlg_frame _ (by decide)]; exact hsampler3
  have hdef' : hyperoptDefaultSearchAlg (hyperoptDefaultSearchAlg h3) = hyperoptDefaultSearchAlg h3 :=
    defaultSearchAlg_skip (defaultSearchAlg_mem h3)
  unfold upgrade_hyperopt
  rw [hpar']
  simp only [Bind.bind, Except.bind]
  rw [hex']
  simp only []
  rw [hsam']
  simp only []
  rw [hdef']

/-
Lemmas about _upgrade_trainer.
-/

theorem upgrade_trainer_of_zero {t : Entries} (hc : eqZeroPy (dgetD t EVAL_BATCH_SIZE) = true) :
    upgrade_trainer t = dset t EVAL_BATCH_SIZE .null := by
  rw [upgrade_trainer, if_pos hc]

theorem upgrade_trainer_of_nonzero {t : Entries}
    (hc : eqZeroPy (dgetD t EVAL_BATCH_SIZE) = false) : upgrade_trainer t = t := by
  rw [upgrade_trainer, if_neg (by simp [hc])]

theorem upgrade_trainer_idem (t : Entries) :
    upgrade_trainer (upgrade_trainer t) = upgrade_trainer t := by
  cases hc : eqZeroPy (dgetD t EVAL_BATCH_SIZE) with
  | true =>
      rw [upgrade_trainer_of_zero hc]
      apply upgrade_trainer_of_nonzero
      rw [dgetD, dget_dset_self]
      rfl
  | false =>
      rw [upgrade_trainer_of_nonzero hc, upgrade_trainer_of_nonzero hc]

/-
Lemmas about merge_dict: keys missing from the second argument keep the value
of the first, keys present in the second win unless both sides hold mappings,
in which case the merge recurses.
-/

theorem mergeValue_of_not_both {o : Option Value} {v : Value}
    (h : bothDicts o v = false) : mergeValue o v = v := by
  cases o with
  | none => cases v <;> rfl
  | some w =>
      cases w <;> cases v <;> first
        | rfl
        | exact absurd h (by simp [bothDicts])

theorem merge_dict_dget_absent : ∀ (b a : Entries) {k : String}, dmem b k = false →
    dget (merge_dict a b) k = dget a k
  | .nil, a, k, _ => rfl
  | .cons k0 v bs, a, k, h => by
      rw [merge_dict]
      have hk0 : ¬ k0 = k := by
        intro he
        subst he
        simp [dmem, dget] at h
      have hbs : dmem bs k = false := by
        simpa [dmem, dget, hk0] using h
      rw [merge_dict_dget_absent bs _ hbs, dget_dset_ne _ _ (fun he => hk0 he.symm)]

theorem merge_dict_dget_right : ∀ (b a : Entries) {k : String} {v : Value},
    dget b k = some v → bothDicts (dget a k) v = false →
    (b.toList.map Prod.fst).Nodup →
    dget (merge_dict a b) k = some v
  | .nil, a, k, v, hb, _, _ => by simp [dget] at hb
  | .cons k0 v0 bs, a, k, v, hb, hnb, hnd => by
      rw [merge_dict]
      rw [Entries.toList, List.map_cons, List.nodup_cons] at hnd
      by_cases hk0 : k0 = k
      · subst hk0
        rw [dget, if_pos rfl] at hb
        injection hb with hb
        subst hb
        have hbs : dmem bs k0 = false := by
          cases hm : dmem bs k0
          · rfl
          · exact absurd (by simpa using mem_keys_of_dmem hm) hnd.1
        rw [merge_dict_dget_absent bs _ hbs, dget_dset_self,
          mergeValue_of_not_both hnb]
      · rw [dget, if_neg hk0] at hb
        refine merge_dict_dget_right bs _ hb ?_ hnd.2
        rwa [dget_dset_ne _ _ (fun he => hk0 he.symm)]

theorem merge_dict_dget_both : ∀ (b a : Entries) {k : String} {ad bd : Entries},
    dget a k = some (.dict ad) → dget b k = some (.dict bd) →
    (b.toList.map Prod.fst).Nodup →
    dget (merge_dict a b) k = some (.dict (merge_dict ad bd))
  | .nil, a, k, ad, bd, _, hb, _ => by simp [dget] at hb
  | .cons k0 v0 bs, a, k, ad, bd, ha, hb, hnd => by
      rw [merge_dict]
      rw [Entries.toList, List.map_cons, List.nodup_cons] at hnd
      by_cases hk0 : k0 = k
      · subst hk0
        rw [dget, if_pos rfl] at hb
        injection hb with hb
        subst hb
        have hbs : dmem bs k0 = false := by
          cases hm : dmem bs k0
          · rfl
          · exact absurd (by simpa using mem_keys_of_dmem hm) hnd.1
        rw [merge_dict_dget_absent bs _ hbs, dget_dset_self, ha]
        rfl
      · rw [dget, if_neg hk0] at hb
        refine merge_dict_dget_both bs _ ?_ hb hnd.2
        rwa [dget_dset_ne _ _ (fun he => hk0 he.symm)]

/-
Lemmas about _upgrade_preprocessing.
-/

theorem dget_dropRegistryKeys (r : List String) :
    ∀ (d : Entries) {k : String}, r.contains k = false →
      dget (dropRegistryKeys r d) k = dget d k
  | .nil, _, _ => rfl
  | .cons k0 v ps, k, h => by
      rw [dropRegistryKeys]
      by_cases hc : r.contains k0
      · rw [if_pos hc, dget_dropRegistryKeys r ps h, dget]
        rw [if_neg (fun he => by rw [he] at hc; rw [hc] at h; cases h)]
      · rw [if_neg hc, dget, dget]
        by_cases hk : k0 = k
        · rw [if_pos hk, if_pos hk]
        · rw [if_neg hk, if_neg hk, dget_dropRegistryKeys r ps h]

theorem dget_dropRegistryKeys_in (r : List String) :
    ∀ (d : Entries) {k : String}, r.contains k = true →
      dget (dropRegistryKeys r d) k = Option.none
  | .nil, _, _ => rfl
  | .cons k0 v ps, k, h => by
      rw [dropRegistryKeys]
      by_cases hc : r.contains k0
      · rw [if_pos hc, dget_dropRegistryKeys_in r ps h]
      · rw [if_neg hc, dget]
        rw [if_neg (fun he => by rw [← he] at h; exact hc h)]
        exact dget_dropRegistryKeys_in r ps h

theorem dropRegistryKeys_idem (r : List String) :
    ∀ d : Entries, dropRegistryKeys r (dropRegistryKeys r d) = dropRegistryKeys r d
  | .nil => rfl
  | .cons k0 v ps => by
      rw [dropRegistryKeys]
      by_cases hc : r.contains k0
      · rw [if_pos hc, dropRegistryKeys_idem r ps]
      · rw [if_neg hc, dropRegistryKeys, if_neg hc, dropRegistryKeys_idem r ps]

theorem stagedParams_dropRegistryKeys (r : List String) :
    ∀ d : Entries, stagedParams r (dropRegistryKeys r d) = []
  | .nil => rfl
  | .cons k0 v ps => by
      rw [dropRegistryKeys]
      by_cases hc : r.contains k0
      · rw [if_pos hc, stagedParams_dropRegistryKeys r ps]
      · rw [if_neg hc, stagedParams, if_neg hc, stagedParams_dropRegistryKeys r ps]

theorem relocateOne_shape {c : Entries} {ft : String} {pp : Value} {c' : Entries}
    (hk : relocateOne c ft pp = .ok c') :
    ∃ defs defs2, dget c DEFAULTS = some (.dict defs) ∧
      relocateValue defs ft pp = .ok defs2 ∧ c' = dset c DEFAULTS (.dict defs2) := by
  unfold relocateOne at hk
  cases hd : dget c DEFAULTS with
  | none =>
      rw [hd] at hk
      have hk2 : (Except.error "defaults section is not a mapping" : Except String Entries)
          = .ok c' := hk
      cases hk2
  | some v =>
      rw [hd] at hk
      cases v with
      | dict defs =>
          have hk2 : (match relocateValue defs ft pp with
            | Except.ok defs2 => Except.ok (dset c DEFAULTS (.dict defs2))
            | Except.error e => (Except.error e : Except String Entries)) = .ok c' := hk
          cases hr : relocateValue defs ft pp with
          | ok defs2 =>
              rw [hr] at hk2
              cases hk2
              exact ⟨defs, defs2, rfl, hr, rfl⟩
          | error e =>
              rw [hr] at hk2
              cases hk2
      | str a => cases hk
      | int a => cases hk
      | bool a => cases hk
      | null => cases hk
      | list a => cases hk

theorem relocFold_frame :
    ∀ (l : List (String × Value)) {c c' : Entries},
      l.foldlM (fun c kv => relocateOne c kv.1 kv.2) c = .ok c' →
      ∀ k, k ≠ DEFAULTS → dget c' k = dget c k := by
  intro l
  induction l with
  | nil =>
      intro c c' hk k hne
      rw [List.foldlM_nil] at hk
      cases hk
      rfl
  | cons kv rest ih =>
      intro c c' hk k hne
      rw [List.foldlM_cons] at hk
      cases hr : relocateOne c kv.1 kv.2 with
      | ok c1 =>
          rw [hr] at hk
          simp only [Bind.bind, Except.bind] at hk
          obtain ⟨defs, defs2, _, _, rfl⟩ := relocateOne_shape hr
          rw [ih hk k hne, dget_dset_ne _ _ hne]
      | error e =>
          rw [hr] at hk
          simp only [Bind.bind, Except.bind] at hk
          cases hk

theorem relocFold_defaults :
    ∀ (l : List (String × Value)) {c c' : Entries},
      l.foldlM (fun c kv => relocateOne c kv.1 kv.2) c = .ok c' →
      dmem c DEFAULTS = true → dmem c' DEFAULTS = true := by
  intro l
  induction l with
  | nil =>
      intro c c' hk hd
      rw [List.foldlM_nil] at hk
      cases hk
      exact hd
  | cons kv rest ih =>
      intro c c' hk hd
      rw [List.foldlM_cons] at hk
      cases hr : relocateOne c kv.1 kv.2 with
      | ok c1 =>
          rw [hr] at hk
          simp only [Bind.bind, Except.bind] at hk
          obtain ⟨defs, defs2, _, _, rfl⟩ := relocateOne_shape hr
          exact ih hk (dmem_dset_self _ _ _)
      | error e =>
          rw [hr] at hk
          simp only [Bind.bind, Except.bind] at hk
          cases hk

theorem ensureDefaults_mem (c : Entries) : dmem (ensureDefaults c) DEFAULTS = true := by
  unfold ensureDefaults
  split
  · exact dmem_dset_self _ _ _
  · next hc => simpa using Decidable.not_not.mp hc

theorem ensureDefaults_frame (c : Entries) {k : String} (hne : k ≠ DEFAULTS) :
    dget (ensureDefaults c) k = dget c k := by
  unfold ensureDefaults
  split
  · exact dget_dset_ne _ _ hne
  · rfl

theorem ensureDefaults_skip {c : Entries} (hd : dmem c DEFAULTS = true) :
    ensureDefaults c = c := by
  unfold ensureDefaults
  rw [if_neg (by simp [hd])]

theorem upgrade_preprocessing_shape {r : List String} {c c' : Entries}
    (hk : upgrade_preprocessing r c = .ok c') :
    ∃ pre, dget c PREPROCESSING = some (.dict pre) ∧
      (stagedParams r pre).foldlM (fun c kv => relocateOne c kv.1 kv.2)
        (ensureDefaults (dset c PREPROCESSING (.dict (dropRegistryKeys r pre)))) = .ok c' := by
  unfold upgrade_preprocessing at hk
  cases hp : dget c PREPROCESSING with
  | none =>
      rw [hp] at hk
      have hk2 : (Except.error "preprocessing section is missing" : Except String Entries)
          = .ok c' := hk
      cases hk2
  | some v =>
      rw [hp] at hk
      cases v with
      | dict pre => exact ⟨pre, rfl, hk⟩
      | str a => cases hk
      | int a => cases hk
      | bool a => cases hk
      | null => cases hk
      | list a => cases hk

theorem upgrade_preprocessing_post {r : List String} {c c' pre : Entries}
    (hpre : dget c PREPROCESSING = some (.dict pre))
    (hk : upgrade_preprocessing r c = .ok c') :
    dget c' PREPROCESSING = some (.dict (dropRegistryKeys r pre)) ∧
    dmem c' DEFAULTS = true ∧
    (∀ k, k ≠ PREPROCESSING → k ≠ DEFAULTS → dget c' k = dget c k) := by
  obtain ⟨pre0, hpre0, hfold⟩ := upgrade_preprocessing_shape hk
  rw [hpre] at hpre0
  injection hpre0 with h1
  injection h1 with h2
  subst h2
  refine ⟨?_, ?_, ?_⟩
  · rw [relocFold_frame _ hfold PREPROCESSING (by decide),
      ensureDefaults_frame _ (by decide), dget_dset_self]
  · exact relocFold_defaults _ hfold (ensureDefaults_mem _)
  · intro k h1 h2
    rw [relocFold_frame _ hfold k h2, ensureDefaults_frame _ h2, dget_dset_ne _ _ h1]

theorem upgrade_preprocessing_second {r : List String} {c pre : Entries}
    (hpre : dget c PREPROCESSING = some (.dict pre))
    (hdrop : dropRegistryKeys r pre = pre)
    (hstaged : stagedParams r pre = [])
    (hdef : dmem c DEFAULTS = true) :
    upgrade_preprocessing r c = .ok c := by
  unfold upgrade_preprocessing
  rw [hpre]
  show (stagedParams r pre).foldlM (fun c kv => relocateOne c kv.1 kv.2)
      (ensureDefaults (dset c PREPROCESSING (.dict (dropRegistryKeys r pre)))) = .ok c
  rw [hstaged, hdrop, dset_same hpre, ensureDefaults_skip hdef, List.foldlM_nil]
  rfl

/-
Lemmas about the steps of the orchestrator upgrade_deprecated_fields.
-/

theorem renameTrainingSection_training (c : Entries) :
    dget (renameTrainingSection c) TRAINING = Option.none := by
  unfold renameTrainingSection
  cases ht : dget c TRAINING with
  | none => exact ht
  | some v => exact dget_ddel_self _ _

theorem renameTrainingSection_skip {c : Entries} (ht : dget c TRAINING = Option.none) :
    renameTrainingSection c = c := by
  unfold renameTrainingSection
  rw [ht]

theorem renameTrainingSection_frame (c : Entries) {k : String}
    (h1 : k ≠ TRAINING) (h2 : k ≠ TRAINER) :
    dget (renameTrainingSection c) k = dget c k := by
  unfold renameTrainingSection
  cases ht : dget c TRAINING with
  | none => rfl
  | some v => rw [dget_ddel_ne _ h1, dget_dset_ne _ _ h2]

theorem renameTrainingSection_trainer {c : Entries} {v : Value}
    (ht : dget c TRAINING = some v) :
    dget (renameTrainingSection c) TRAINER = some v := by
  unfold renameTrainingSection
  rw [ht, dget_ddel_ne _ (by decide : TRAINER ≠ TRAINING), dget_dset_self]

theorem featKey_shape {c c2 : Entries} {key : String}
    (hk : upgradeFeaturesKey c key = .ok c2) :
    (dget c key = Option.none ∧ c2 = c) ∨
    ∃ l l', dget c key = some (.list l) ∧ upgradeFeatureList l = .ok l' ∧
      c2 = dset c key (.list l') := by
  unfold upgradeFeaturesKey at hk
  cases hg : dget c key with
  | none => rw [hg] at hk; cases hk; exact .inl ⟨rfl, rfl⟩
  | some v =>
      rw [hg] at hk
      cases v with
      | list l =>
          have hk2 : (do
            let l' ← upgradeFeatureList l
            Except.ok (dset c key (.list l'))) = .ok c2 := hk
          cases hl : upgradeFeatureList l with
          | ok l' =>
              rw [hl] at hk2
              simp only [Bind.bind, Except.bind] at hk2
              cases hk2
              exact .inr ⟨l, l', rfl, hl, rfl⟩
          | error e =>
              rw [hl] at hk2
              simp only [Bind.bind, Except.bind] at hk2
              cases hk2
      | str a => cases hk
      | int a => cases hk
      | bool a => cases hk
      | null => cases hk
      | dict a => cases hk

theorem featKey_frame {c c2 : Entries} {key : String}
    (hk : upgradeFeaturesKey c key = .ok c2) {k : String} (hne : k ≠ key) :
    dget c2 k = dget c k := by
  rcases featKey_shape hk with ⟨_, rfl⟩ | ⟨l, l', _, _, rfl⟩
  · rfl
  · exact dget_dset_ne _ _ hne

theorem featKey_post {c c2 : Entries} {key : String}
    (hk : upgradeFeaturesKey c key = .ok c2) :
    dget c2 key = Option.none ∨
    ∃ l', dget c2 key = some (.list l') ∧ upgradeFeatureList l' = .ok l' := by
  rcases featKey_shape hk with ⟨hg, rfl⟩ | ⟨l, l', _, hl, rfl⟩
  · exact .inl hg
  · exact .inr ⟨l', dget_dset_self _ _ _, upgradeFeatureList_idem hl⟩

theorem featKey_second {c : Entries} {key : String}
    (hc : dget c key = Option.none ∨
      ∃ l', dget c key = some (.list l') ∧ upgradeFeatureList l' = .ok l') :
    upgradeFeaturesKey c key = .ok c := by
  unfold upgradeFeaturesKey
  rcases hc with hg | ⟨l', hg, hl⟩
  · rw [hg]
  · rw [hg]
    show (do
      let l2 ← upgradeFeatureList l'
      Except.ok (dset c key (.list l2))) = .ok c
    rw [hl]
    simp only [Bind.bind, Except.bind]
    rw [dset_same hg]

theorem hyperoptStep_shape {c c2 : Entries} (hk : hyperoptStep c = .ok c2) :
    (dget c HYPEROPT = Option.none ∧ c2 = c) ∨
    ∃ hh hh', dget c HYPEROPT = some (.dict hh) ∧ upgrade_hyperopt hh = .ok hh' ∧
      c2 = dset c HYPEROPT (.dict hh') := by
  unfold hyperoptStep at hk
  cases hg : dget c HYPEROPT with
  | none => rw [hg] at hk; cases hk; exact .inl ⟨rfl, rfl⟩
  | some v =>
      rw [hg] at hk
      cases v with
      | dict hh =>
          have hk2 : (do
            let hh' ← upgrade_hyperopt hh
            Except.ok (dset c HYPEROPT (.dict hh'))) = .ok c2 := hk
          cases hl : upgrade_hyperopt hh with
          | ok hh' =>
              rw [hl] at hk2
              simp only [Bind.bind, Except.bind] at hk2
              cases hk2
              exact .inr ⟨hh, hh', rfl, hl, rfl⟩
          | error e =>
              rw [hl] at hk2
              simp only [Bind.bind, Except.bind] at hk2
              cases hk2
      | str a => cases hk
      | int a => cases hk
      | bool a => cases hk
      | null => cases hk
      | list a => cases hk

theorem hyperoptStep_frame {c c2 : Entries} (hk : hyperoptStep c = .ok c2)
    {k : String} (hne : k ≠ HYPEROPT) : dget c2 k = dget c k := by
  rcases hyperoptStep_shape hk with ⟨_, rfl⟩ | ⟨hh, hh', _, _, rfl⟩
  · rfl
  · exact dget_dset_ne _ _ hne

theorem hyperoptStep_post {c c2 : Entries} (hk : hyperoptStep c = .ok c2) :
    dget c2 HYPEROPT = Option.none ∨
    ∃ hh, dget c2 HYPEROPT = some (.dict hh) ∧ upgrade_hyperopt hh = .ok hh := by
  rcases hyperoptStep_shape hk with ⟨hg, rfl⟩ | ⟨hh, hh', _, hl, rfl⟩
  · exact .inl hg
  · exact .inr ⟨hh', dget_dset_self _ _ _, upgrade_hyperopt_idem hl⟩

theorem hyperoptStep_second {c : Entries}
    (hc : dget c HYPEROPT = Option.none ∨
      ∃ hh, dget c HYPEROPT = some (.dict hh) ∧ upgrade_hyperopt hh = .ok hh) :
    hyperoptStep c = .ok c := by
  unfold hyperoptStep
  rcases hc with hg | ⟨hh, hg, hl⟩
  · rw [hg]
  · rw [hg]
    show (do
      let hh' ← upgrade_hyperopt hh
      Except.ok (dset c HYPEROPT (.dict hh'))) = .ok c
    rw [hl]
    simp only [Bind.bind, Except.bind]
    rw [dset_same hg]

theorem trainerStep_shape {c c2 : Entries} (hk : trainerStep c = .ok c2) :
    (dget c TRAINER = Option.none ∧ c2 = c) ∨
    ∃ t, dget c TRAINER = some (.dict t) ∧ c2 = dset c TRAINER (.dict (upgrade_trainer t)) := by
  unfold trainerStep at hk
  cases hg : dget c TRAINER with
  | none => rw [hg] at hk; cases hk; exact .inl ⟨rfl, rfl⟩
  | some v =>
      rw [hg] at hk
      cases v with
      | dict t => cases hk; exact .inr ⟨t, rfl, rfl⟩
      | str a => cases hk
      | int a => cases hk
      | bool a => cases hk
      | null => cases hk
      | list a => cases hk

theorem trainerStep_frame {c c2 : Entries} (hk : trainerStep c = .ok c2)
    {k : String} (hne : k ≠ TRAINER) : dget c2 k = dget c k := by
  rcases trainerStep_shape hk with ⟨_, rfl⟩ | ⟨t, _, rfl⟩
  · rfl
  · exact dget_dset_ne _ _ hne

theorem trainerStep_post {c c2 : Entries} (hk : trainerStep c = .ok c2) :
    dget c2 TRAINER = Option.none ∨
    ∃ t, dget c2 TRAINER = some (.dict t) ∧ upgrade_trainer t = t := by
  rcases trainerStep_shape hk with ⟨hg, rfl⟩ | ⟨t, _, rfl⟩
  · exact .inl hg
  · exact .inr ⟨upgrade_trainer t, dget_dset_self _ _ _, upgrade_trainer_idem t⟩

theorem trainerStep_second {c : Entries}
    (hc : dget c TRAINER = Option.none ∨
      ∃ t, dget c TRAINER = some (.dict t) ∧ upgrade_trainer t = t) :
    trainerStep c = .ok c := by
  unfold trainerStep
  rcases hc with hg | ⟨t, hg, hl⟩
  · rw [hg]
  · rw [hg]
    show Except.ok (dset c TRAINER (.dict (upgrade_trainer t))) = .ok c
    rw [hl, dset_same hg]

theorem preprocessingStep_shape {r : List String} {c c2 : Entries}
    (hk : preprocessingStep r c = .ok c2) :
    (dmem c PREPROCESSING = false ∧ c2 = c) ∨
    (dmem c PREPROCESSING = true ∧ upgrade_preprocessing r c = .ok c2) := by
  unfold preprocessingStep at hk
  cases hm : dmem c PREPROCESSING with
  | false =>
      rw [hm] at hk
      simp only [Bool.false_eq_true, if_false] at hk
      cases hk
      exact .inl ⟨rfl, rfl⟩
  | true =>
      rw [hm] at hk
      simp only [if_true] at hk
      exact .inr ⟨rfl, hk⟩

theorem preprocessingStep_frame {r : List String} {c c2 : Entries}
    (hk : preprocessingStep r c = .ok c2) {k : String}
    (h1 : k ≠ PREPROCESSING) (h2 : k ≠ DEFAULTS) : dget c2 k = dget c k := by
  rcases preprocessingStep_shape hk with ⟨_, rfl⟩ | ⟨hm, hup⟩
  · rfl
  · obtain ⟨pre, hpre, _⟩ := upgrade_preprocessing_shape hup
    exact (upgrade_preprocessing_post hpre hup).2.2 k h1 h2

theorem preprocessingStep_post {r : List String} {c c2 : Entries}
    (hk : preprocessingStep r c = .ok c2) :
    dmem c2 PREPROCESSING = false ∨
    ∃ pre, dget c2 PREPROCESSING = some (.dict pre) ∧ dropRegistryKeys r pre = pre ∧
      stagedParams r pre = [] ∧ dmem c2 DEFAULTS = true := by
  rcases preprocessingStep_shape hk with ⟨hm, rfl⟩ | ⟨hm, hup⟩
  · exact .inl hm
  · obtain ⟨pre, hpre, _⟩ := upgrade_preprocessing_shape hup
    obtain ⟨hp2, hd2, _⟩ := upgrade_preprocessing_post hpre hup
    exact .inr ⟨dropRegistryKeys r pre, hp2, dropRegistryKeys_idem r pre,
      stagedParams_dropRegistryKeys r pre, hd2⟩

theorem preprocessingStep_second {r : List String} {c : Entries}
    (hc : dmem c PREPROCESSING = false ∨
      ∃ pre, dget c PREPROCESSING = some (.dict pre) ∧ dropRegistryKeys r pre = pre ∧
        stagedParams r pre = [] ∧ dmem c DEFAULTS = true) :
    preprocessingStep r c = .ok c := by
  unfold preprocessingStep
  rcases hc with hm | ⟨pre, hpre, hdrop, hstaged, hdef⟩
  · rw [hm]
    rfl
  · rw [show dmem c PREPROCESSING = true from by simp [dmem, hpre]]
    simp only [if_true]
    exact upgrade_preprocessing_second hpre hdrop hstaged hdef

/-
Decomposition, postcondition and idempotence of upgrade_deprecated_fields.
-/

theorem udf_shape {r : List String} {c c' : Entries}
    (hk : upgrade_deprecated_fields r c = .ok c') :
    ∃ c1 c2 c3 c4, upgradeFeaturesKey (renameTrainingSection c) INPUT_FEATURES = .ok c1 ∧
      upgradeFeaturesKey c1 OUTPUT_FEATURES = .ok c2 ∧ hyperoptStep c2 = .ok c3 ∧
      trainerStep c3 = .ok c4 ∧ preprocessingStep r c4 = .ok c' := by
  unfold upgrade_deprecated_fields at hk
  cases h1 : upgradeFeaturesKey (renameTrainingSection c) INPUT_FEATURES with
  | error e =>
      rw [h1] at hk
      simp only [Bind.bind, Except.bind] at hk
      cases hk
  | ok c1 =>
      rw [h1] at hk
      simp only [Bind.bind, Except.bind] at hk
      cases h2 : upgradeFeaturesKey c1 OUTPUT_FEATURES with
      | error e =>
          rw [h2] at hk
          simp only [Except.bind] at hk
          cases hk
      | ok c2 =>
          rw [h2] at hk
          simp only [Except.bind] at hk
          cases h3 : hyperoptStep c2 with
          | error e =>
              rw [h3] at hk
              simp only [Except.bind] at hk
              cases hk
          | ok c3 =>
              rw [h3] at hk
              simp only [Except.bind] at hk
              cases h4 : trainerStep c3 with
              | error e =>
                  rw [h4] at hk
                  simp only [Except.bind] at hk
                  cases hk
              | ok c4 =>
                  rw [h4] at hk
                  simp only [Except.bind] at hk
                  exact ⟨c1, c2, c3, c4, rfl, h2, h3, h4, hk⟩

theorem udf_post {r : List String} {c c' : Entries}
    (hk : upgrade_deprecated_fields r c = .ok c') :
    dget c' TRAINING = Option.none ∧
    (dget c' INPUT_FEATURES = Option.none ∨
      ∃ l, dget c' INPUT_FEATURES = some (.list l) ∧ upgradeFeatureList l = .ok l) ∧
    (dget c' OUTPUT_FEATURES = Option.none ∨
      ∃ l, dget c' OUTPUT_FEATURES = some (.list l) ∧ upgradeFeatureList l = .ok l) ∧
    (dget c' HYPEROPT = Option.none ∨
      ∃ hh, dget c' HYPEROPT = some (.dict hh) ∧ upgrade_hyperopt hh = .ok hh) ∧
    (dget c' TRAINER = Option.none ∨
      ∃ t, dget c' TRAINER = some (.dict t) ∧ upgrade_trainer t = t) ∧
    (dmem c' PREPROCESSING = false ∨
      ∃ pre, dget c' PREPROCESSING = some (.dict pre) ∧ dropRegistryKeys r pre = pre ∧
        stagedParams r pre = [] ∧ dmem c' DEFAULTS = true) := by
  obtain ⟨c1, c2, c3, c4, h1, h2, h3, h4, h5⟩ := udf_shape hk
  refine ⟨?_, ?_, ?_, ?_, ?_, preprocessingStep_post h5⟩
  · rw [preprocessingStep_frame h5 (by decide) (by decide),
      trainerStep_frame h4 (by decide), hyperoptStep_frame h3 (by decide),
      featKey_frame h2 (by decide), featKey_frame h1 (by decide)]
    exact renameTrainingSection_training c
  · rw [preprocessingStep_frame h5 (by decide) (by decide),
      trainerStep_frame h4 (by decide), hyperoptStep_frame h3 (by decide),
      featKey_frame h2 (by decide)]
    exact featKey_post h1
  · rw [preprocessingStep_frame h5 (by decide) (by decide),
      trainerStep_frame h4 (by decide), hyperoptStep_frame h3 (by decide)]
    exact featKey_post h2
  · rw [preprocessingStep_frame h5 (by decide) (by decide),
      trainerStep_frame h4 (by decide)]
    exact hyperoptStep_post h3
  · rw [preprocessingStep_frame h5 (by decide) (by decide)]
    exact trainerStep_post h4

/-
Claim theorems.
-/

/-- C7: in every mapping node visited by the tree walker over a feature entry
subtree, _upgrade_use_bias removes each of bias, conv_bias and default_bias
and copies its value to use_bias, conv_use_bias and default_use_bias
respectively; the three renames are independent and all applied. -/
theorem upgrade_use_bias_renames (d : Entries) :
    dmem (upgrade_use_bias d) "bias" = false ∧
    dmem (upgrade_use_bias d) "conv_bias" = false ∧
    dmem (upgrade_use_bias d) "default_bias" = false ∧
    dget (upgrade_use_bias d) "use_bias" =
      (if dmem d "bias" then dget d "bias" else dget d "use_bias") ∧
    dget (upgrade_use_bias d) "conv_use_bias" =
      (if dmem d "conv_bias" then dget d "conv_bias" else dget d "conv_use_bias") ∧
    dget (upgrade_use_bias d) "default_use_bias" =
      (if dmem d "default_bias" then dget d "default_bias" else dget d "default_use_bias") := by
  refine ⟨upgrade_use_bias_dmem_bias d, upgrade_use_bias_dmem_conv d,
    upgrade_use_bias_dmem_default d, ?_, ?_, ?_⟩
  · unfold upgrade_use_bias
    rw [renameKey_dget_other (by decide) (by decide),
      renameKey_dget_other (by decide) (by decide),
      renameKey_dget_new (by decide)]
  · unfold upgrade_use_bias
    rw [renameKey_dget_other (by decide) (by decide),
      renameKey_dget_new (by decide),
      renameKey_dmem_other (by decide) (by decide),
      renameKey_dget_other (by decide) (by decide),
      renameKey_dget_other (by decide) (by decide)]
  · unfold upgrade_use_bias
    rw [renameKey_dget_new (by decide),
      renameKey_dmem_other (by decide) (by decide),
      renameKey_dmem_other (by decide) (by decide),
      renameKey_dget_other (by decide) (by decide),
      renameKey_dget_other (by decide) (by decide),
      renameKey_dget_other (by decide) (by decide),
      renameKey_dget_other (by decide) (by decide)]

/-- C9: the trainer rule compares eval_batch_size to 0 with Python loose
numeric equality, so a boolean False value is rewritten to None exactly as the
integer literal 0 is. -/
theorem upgrade_trainer_false_to_null (t : Entries)
    (h : dget t EVAL_BATCH_SIZE = some (.bool false)) :
    dget (upgrade_trainer t) EVAL_BATCH_SIZE = some .null := by
  rw [upgrade_trainer_of_zero (by rw [dgetD_of_dget h]; rfl), dget_dset_self]

/-- Witness for C9 at a concrete trainer section. -/
theorem upgrade_trainer_false_to_null_witness :
    dget (Entries.ofL [(EVAL_BATCH_SIZE, .bool false)]) EVAL_BATCH_SIZE =
      some (.bool false) ∧
    dget (upgrade_trainer (Entries.ofL [(EVAL_BATCH_SIZE, .bool false)]))
      EVAL_BATCH_SIZE = some .null :=
  ⟨rfl, upgrade_trainer_false_to_null _ rfl⟩

/-- C3: upgrading a document a second time changes nothing: when the first
run succeeds, running upgrade_deprecated_fields on its output returns that
output unchanged. -/
theorem upgrade_deprecated_fields_idempotent (registry : List String) (d d' : Entries)
    (hk : upgrade_deprecated_fields registry d = .ok d') :
    upgrade_deprecated_fields registry d' = .ok d' := by
  obtain ⟨hP1, hP2, hP3, hP4, hP5, hP6⟩ := udf_post hk
  have h1 : renameTrainingSection d' = d' := renameTrainingSection_skip hP1
  have h2 : upgradeFeaturesKey d' INPUT_FEATURES = .ok d' := featKey_second hP2
  have h3 : upgradeFeaturesKey d' OUTPUT_FEATURES = .ok d' := featKey_second hP3
  have h4 : hyperoptStep d' = .ok d' := hyperoptStep_second hP4
  have h5 : trainerStep d' = .ok d' := trainerStep_second hP5
  have h6 : preprocessingStep registry d' = .ok d' := preprocessingStep_second hP6
  unfold upgrade_deprecated_fields
  rw [h1, h2]
  simp only [Bind.bind, Except.bind]
  rw [h3]
  simp only [Except.bind]
  rw [h4]
  simp only [Except.bind]
  rw [h5]
  simp only [Except.bind]
  exact h6

/-- Witness for C3 on a document exercising every rule. -/
theorem upgrade_deprecated_fields_idempotent_witness :
    upgrade_deprecated_fields sampleRegistry sampleDoc = .ok sampleUpgraded ∧
    upgrade_deprecated_fields sampleRegistry sampleUpgraded = .ok sampleUpgraded :=
  ⟨rfl, upgrade_deprecated_fields_idempotent sampleRegistry sampleDoc sampleUpgraded rfl⟩

theorem cleanL_upgradeFeatureList :
    ∀ {l l' : ValueList}, upgradeFeatureList l = .ok l' → cleanL l' = true
  | .nil, l', h => by
      rw [upgradeFeatureList] at h
      cases h
      rfl
  | .cons v vs, l', h => by
      cases v with
      | dict fd =>
          rw [upgradeFeatureList] at h
          cases hvs : upgradeFeatureList vs with
          | ok vs' =>
              rw [hvs] at h
              simp only [Bind.bind, Except.bind] at h
              cases h
              rw [cleanL, Bool.and_eq_true]
              refine ⟨?_, cleanL_upgradeFeatureList hvs⟩
              rw [cleanV, Bool.and_eq_true]
              exact ⟨noBadKeys_upgrade_feature fd, cleanE_upgrade_feature fd⟩
          | error e =>
              rw [hvs] at h
              simp only [Bind.bind, Except.bind] at h
              cases h
      | str s => simp [upgradeFeatureList] at h
      | int n => simp [upgradeFeatureList] at h
      | bool b => simp [upgradeFeatureList] at h
      | null => simp [upgradeFeatureList] at h
      | list vs0 => simp [upgradeFeatureList] at h

theorem upgrade_hyperopt_invariants {h h' : Entries} (hk : upgrade_hyperopt h = .ok h') :
    (∀ ps, dget h' PARAMETERS = some (.dict ps) →
      ∀ kv ∈ ps.toList, hasTrainingDot kv.1 = false) ∧
    (∀ ex, dget h' EXECUTOR = some (.dict ex) → dmem ex SEARCH_ALG = false) ∧
    dget h' SAMPLER = Option.none := by
  obtain ⟨h1, h2, h3, hp, hx, hsm, rfl⟩ := upgrade_hyperopt_shape hk
  obtain ⟨e2, he2, hty2, hsa2⟩ := execStage_post hx
  obtain ⟨hsam3, ⟨e3, he3, hty3, hsa3⟩, hframe3⟩ := samplerStage_post he2 hsm
  refine ⟨?_, ?_, ?_⟩
  · intro ps hps kv hm
    have hps1 : dget h1 PARAMETERS = some (.dict ps) := by
      rw [← execStage_frame hx (by decide) (by decide),
        ← hframe3 _ (by decide) (by decide) (by decide),
        ← defaultSearchAlg_frame h3 (by decide : PARAMETERS ≠ SEARCH_ALG)]
      exact hps
    rcases paramsStage_post hp with hc | ⟨ps0, hc⟩
    · rw [hps1] at hc; cases hc
    · rw [hps1] at hc
      injection hc with hc1
      injection hc1 with hc2
      subst hc2
      exact dmem_renameTrainingParams_no_training (dmem_of_mem_toList hm)
  · intro ex hex
    have he4 : dget (hyperoptDefaultSearchAlg h3) EXECUTOR = some (.dict e3) := by
      rw [defaultSearchAlg_frame h3 (by decide : EXECUTOR ≠ SEARCH_ALG)]
      exact he3
    rw [he4] at hex
    injection hex with hc1
    injection hc1 with hc2
    subst hc2
    rw [hsa3]
    exact hsa2
  · rw [defaultSearchAlg_frame h3 (by decide : SAMPLER ≠ SEARCH_ALG)]
    exact hsam3

/-- C4: after the orchestrator runs, no deprecated key of any rule remains in
its scope: no top-level training key, no bias, conv_bias or default_bias key
in any mapping of any feature entry subtree, no hyperopt parameter key with
the training. name, no search_alg inside the executor, no sampler section,
and no registered feature-type key left inside the preprocessing section. -/
theorem no_deprecated_fields_remain (registry : List String) (d d' : Entries)
    (hk : upgrade_deprecated_fields registry d = .ok d') :
    dget d' TRAINING = Option.none ∧
    (∀ l, dget d' INPUT_FEATURES = some (.list l) → cleanL l = true) ∧
    (∀ l, dget d' OUTPUT_FEATURES = some (.list l) → cleanL l = true) ∧
    (∀ hh ps, dget d' HYPEROPT = some (.dict hh) → dget hh PARAMETERS = some (.dict ps) →
      ∀ kv ∈ ps.toList, hasTrainingDot kv.1 = false) ∧
    (∀ hh ex, dget d' HYPEROPT = some (.dict hh) → dget hh EXECUTOR = some (.dict ex) →
      dmem ex SEARCH_ALG = false) ∧
    (∀ hh, dget d' HYPEROPT = some (.dict hh) → dmem hh SAMPLER = false) ∧
    (∀ pre, dget d' PREPROCESSING = some (.dict pre) →
      ∀ k, registry.contains k = true → dmem pre k = false) := by
  obtain ⟨hP1, hP2, hP3, hP4, hP5, hP6⟩ := udf_post hk
  refine ⟨hP1, ?_, ?_, ?_, ?_, ?_, ?_⟩
  · intro l hl
    rcases hP2 with hc | ⟨l0, hc, hid⟩
    · rw [hl] at hc; cases hc
    · rw [hl] at hc
      injection hc with hc1
      injection hc1 with hc2
      subst hc2
      exact cleanL_upgradeFeatureList hid
  · intro l hl
    rcases hP3 with hc | ⟨l0, hc, hid⟩
    · rw [hl] at hc; cases hc
    · rw [hl] at hc
      injection hc with hc1
      injection hc1 with hc2
      subst hc2
      exact cleanL_upgradeFeatureList hid
  · intro hh ps hhh hps
    rcases hP4 with hc | ⟨hh0, hc, hid⟩
    · rw [hhh] at hc; cases hc
    · rw [hhh] at hc
      injection hc with hc1
      injection hc1 with hc2
      subst hc2
      exact (upgrade_hyperopt_invariants hid).1 ps hps
  · intro hh ex hhh hex
    rcases hP4 with hc | ⟨hh0, hc, hid⟩
    · rw [hhh] at hc; cases hc
    · rw [hhh] at hc
      injection hc with hc1
      injection hc1 with hc2
      subst hc2
      exact (upgrade_hyperopt_invariants hid).2.1 ex hex
  · intro hh hhh
    rcases hP4 with hc | ⟨hh0, hc, hid⟩
    · rw [hhh] at hc; cases hc
    · rw [hhh] at hc
      injection hc with hc1
      injection hc1 with hc2
      subst hc2
      rw [dmem, (upgrade_hyperopt_invariants hid).2.2]
      rfl
  · intro pre hpre k hkr
    rcases hP6 with hc | ⟨pre0, hc, hdrop, _, _⟩
    · rw [dmem, hpre] at hc; cases hc
    · rw [hpre] at hc
      injection hc with hc1
      injection hc1 with hc2
      subst hc2
      rw [← hdrop, dmem, dget_dropRegistryKeys_in registry pre hkr]
      rfl

/-- Witness for C4 on a document exercising every rule. -/
theorem no_deprecated_fields_remain_witness :
    upgrade_deprecated_fields sampleRegistry sampleDoc = .ok sampleUpgraded ∧
    (dget sampleUpgraded TRAINING = Option.none ∧
    (∀ l, dget sampleUpgraded INPUT_FEATURES = some (.list l) → cleanL l = true) ∧
    (∀ l, dget sampleUpgraded OUTPUT_FEATURES = some (.list l) → cleanL l = true) ∧
    (∀ hh ps, dget sampleUpgraded HYPEROPT = some (.dict hh) →
      dget hh PARAMETERS = some (.dict ps) →
      ∀ kv ∈ ps.toList, hasTrainingDot kv.1 = false) ∧
    (∀ hh ex, dget sampleUpgraded HYPEROPT = some (.dict hh) →
      dget hh EXECUTOR = some (.dict ex) → dmem ex SEARCH_ALG = false) ∧
    (∀ hh, dget sampleUpgraded HYPEROPT = some (.dict hh) → dmem hh SAMPLER = false) ∧
    (∀ pre, dget sampleUpgraded PREPROCESSING = some (.dict pre) →
      ∀ k, sampleRegistry.contains k = true → dmem pre k = false)) :=
  ⟨rfl, no_deprecated_fields_remain sampleRegistry sampleDoc sampleUpgraded rfl⟩

theorem udf_trainer_value {r : List String} {d d' : Entries} {v : Value}
    (hk : upgrade_deprecated_fields r d = .ok d')
    (ht : dget (renameTrainingSection d) TRAINER = some v) :
    ∃ t, v = .dict t ∧ dget d' TRAINER = some (.dict (upgrade_trainer t)) := by
  obtain ⟨c1, c2, c3, c4, h1, h2, h3, h4, h5⟩ := udf_shape hk
  have hc3 : dget c3 TRAINER = some v := by
    rw [hyperoptStep_frame h3 (by decide), featKey_frame h2 (by decide),
      featKey_frame h1 (by decide)]
    exact ht
  rcases trainerStep_shape h4 with ⟨hg, rfl⟩ | ⟨t0, hg, rfl⟩
  · rw [hc3] at hg; cases hg
  · rw [hc3] at hg
    injection hg with hg1
    refine ⟨t0, hg1, ?_⟩
    rw [preprocessingStep_frame h5 (by decide) (by decide), dget_dset_self]

/-- C6: when the trainer section (possibly just created from the legacy
training section by the rename that runs first) has eval_batch_size equal to
the integer literal 0, the upgraded document holds None there instead; a
nonzero integer value is kept unchanged. -/
theorem trainer_eval_batch_size_zero (registry : List String) (d d' t : Entries)
    (hk : upgrade_deprecated_fields registry d = .ok d')
    (ht : dget d TRAINING = some (.dict t) ∨
      (dget d TRAINING = Option.none ∧ dget d TRAINER = some (.dict t))) :
    (dget t EVAL_BATCH_SIZE = some (.int 0) →
      ∃ t', dget d' TRAINER = some (.dict t') ∧
        dget t' EVAL_BATCH_SIZE = some .null) ∧
    (∀ n : Int, n ≠ 0 → dget t EVAL_BATCH_SIZE = some (.int n) →
      ∃ t', dget d' TRAINER = some (.dict t') ∧
        dget t' EVAL_BATCH_SIZE = some (.int n)) := by
  have hrts : dget (renameTrainingSection d) TRAINER = some (.dict t) := by
    rcases ht with ht | ⟨htn, htr⟩
    · exact renameTrainingSection_trainer ht
    · rw [renameTrainingSection_skip htn]
      exact htr
  obtain ⟨t0, hv, hres⟩ := udf_trainer_value hk hrts
  injection hv with hv0
  subst hv0
  constructor
  · intro hz
    refine ⟨upgrade_trainer t, hres, ?_⟩
    rw [upgrade_trainer_of_zero (by rw [dgetD_of_dget hz]; rfl), dget_dset_self]
  · intro n hn hv
    refine ⟨upgrade_trainer t, hres, ?_⟩
    rw [upgrade_trainer_of_nonzero
      (by rw [dgetD_of_dget hv]; simp [eqZeroPy, hn]), hv]

/-- Witness for C6 on sampleDoc, whose training section has
eval_batch_size 0. -/
theorem trainer_eval_batch_size_zero_witness :
    upgrade_deprecated_fields sampleRegistry sampleDoc = .ok sampleUpgraded ∧
    dget sampleDoc TRAINING =
      some (.dict (Entries.ofL [(EVAL_BATCH_SIZE, .int 0)])) ∧
    ∃ t', dget sampleUpgraded TRAINER = some (.dict t') ∧
      dget t' EVAL_BATCH_SIZE = some .null :=
  ⟨rfl, rfl,
    (trainer_eval_batch_size_zero sampleRegistry sampleDoc sampleUpgraded
      (Entries.ofL [(EVAL_BATCH_SIZE, .int 0)]) rfl (.inl rfl)).1 rfl⟩

/-- C8 counterexample: on a document whose training section carries
eval_batch_size 0, the final trainer value is not the value formerly under
training, because the trainer upgrade rewrites it afterwards. -/
theorem trainer_not_entire_training_value :
    upgrade_deprecated_fields [] c8doc =
      .ok (.cons TRAINER (.dict (.cons EVAL_BATCH_SIZE .null .nil)) .nil) ∧
    dget (.cons TRAINER (.dict (.cons EVAL_BATCH_SIZE .null .nil)) .nil : Entries)
        TRAINER ≠ dget c8doc TRAINING := by
  exact ⟨rfl, by decide⟩

/-- C8 amended: a document with a training key has, after upgrade, no
training key, and its trainer key holds the value formerly under training
with the trainer-section upgrade applied to it (so eval_batch_size 0 inside
it becomes None; any other value is carried over verbatim, overwriting a
pre-existing trainer). -/
theorem training_moved_to_trainer (registry : List String) (d d' : Entries) (v : Value)
    (hk : upgrade_deprecated_fields registry d = .ok d')
    (ht : dget d TRAINING = some v) :
    dget d' TRAINING = Option.none ∧
    ∃ t, v = .dict t ∧ dget d' TRAINER = some (.dict (upgrade_trainer t)) :=
  ⟨(udf_post hk).1, udf_trainer_value hk (renameTrainingSection_trainer ht)⟩

/-- Witness for the amended C8 on sampleDoc. -/
theorem training_moved_to_trainer_witness :
    upgrade_deprecated_fields sampleRegistry sampleDoc = .ok sampleUpgraded ∧
    dget sampleDoc TRAINING = some (Value.obj [(EVAL_BATCH_SIZE, .int 0)]) ∧
    (dget sampleUpgraded TRAINING = Option.none ∧
      ∃ t, Value.obj [(EVAL_BATCH_SIZE, .int 0)] = .dict t ∧
        dget sampleUpgraded TRAINER = some (.dict (upgrade_trainer t))) :=
  ⟨rfl, rfl,
    training_moved_to_trainer sampleRegistry sampleDoc sampleUpgraded
      (Value.obj [(EVAL_BATCH_SIZE, .int 0)]) rfl rfl⟩

/-- C10: the preprocessing relocation keeps the preprocessing key (bound to a
mapping, possibly empty), leaves every key of its value that is not a
registered feature type unchanged, and touches no top-level key of the
document other than preprocessing and defaults. -/
theorem preprocessing_relocation_frame_effect (registry : List String)
    (c c' pre : Entries)
    (hpre : dget c PREPROCESSING = some (.dict pre))
    (hk : upgrade_preprocessing registry c = .ok c') :
    (∃ pre', dget c' PREPROCESSING = some (.dict pre') ∧
      ∀ k, registry.contains k = false → dget pre' k = dget pre k) ∧
    (∀ k, k ≠ PREPROCESSING → k ≠ DEFAULTS → dget c' k = dget c k) := by
  obtain ⟨hp2, _, hframe⟩ := upgrade_preprocessing_post hpre hk
  exact ⟨⟨dropRegistryKeys registry pre, hp2,
    fun k hkf => dget_dropRegistryKeys registry pre hkf⟩, hframe⟩

/-- Witness for C10 on a concrete document. -/
theorem preprocessing_relocation_frame_effect_witness :
    dget preprocessingDoc PREPROCESSING =
      some (.dict (.ofL
        [("number", Value.obj [(PREPROCESSING, Value.obj [("mv", .int 1)])]),
         ("other", .int 9)])) ∧
    upgrade_preprocessing ["number"] preprocessingDoc = .ok preprocessingUpgraded ∧
    ((∃ pre', dget preprocessingUpgraded PREPROCESSING = some (.dict pre') ∧
      ∀ k, (["number"] : List String).contains k = false →
        dget pre' k = dget (Entries.ofL
          [("number", Value.obj [(PREPROCESSING, Value.obj [("mv", .int 1)])]),
           ("other", .int 9)]) k) ∧
    (∀ k, k ≠ PREPROCESSING → k ≠ DEFAULTS →
      dget preprocessingUpgraded k = dget preprocessingDoc k)) :=
  ⟨rfl, rfl,
    preprocessing_relocation_frame_effect ["number"] preprocessingDoc
      preprocessingUpgraded
      (.ofL [("number", Value.obj [(PREPROCESSING, Value.obj [("mv", .int 1)])]),
             ("other", .int 9)]) rfl rfl⟩

/-- C5: when a sampler sub-section exists (the executor having been ensured by
the earlier executor block), its search_alg is promoted to the hyperopt top
level only when no top-level search_alg exists, its num_samples and scheduler
are each copied into the executor only when the executor lacks that key, and
the whole sampler sub-section is then deleted unconditionally. -/
theorem sampler_migration (h h' s ex : Entries)
    (hs : dget h SAMPLER = some (.dict s))
    (hex : dget h EXECUTOR = some (.dict ex))
    (hk : hyperoptSamplerStage h = .ok h') :
    dmem h' SAMPLER = false ∧
    dget h' SEARCH_ALG =
      (if dmem s SEARCH_ALG ∧ ¬ dmem h SEARCH_ALG then dget s SEARCH_ALG
       else dget h SEARCH_ALG) ∧
    ∃ ex', dget h' EXECUTOR = some (.dict ex') ∧
      dget ex' "num_samples" =
        (if dmem s "num_samples" ∧ dmem ex "num_samples" = false then dget s "num_samples"
         else dget ex "num_samples") ∧
      dget ex' SCHEDULER =
        (if dmem s SCHEDULER ∧ dmem ex SCHEDULER = false then dget s SCHEDULER
         else dget ex SCHEDULER) := by
  obtain ⟨h1, h2, ⟨ex', he, hn, hsch, _⟩, _⟩ := samplerStage_spec hs hex hk
  exact ⟨by simp [dmem, h1], h2, ex', he, hn, hsch⟩

/-- Witness for C5 on the sampler-migration example of the spec. -/
theorem sampler_migration_witness :
    dget samplerDoc SAMPLER = some (.dict samplerS) ∧
    dget samplerDoc EXECUTOR = some (.dict samplerEx) ∧
    hyperoptSamplerStage samplerDoc = .ok samplerRes ∧
    (dmem samplerRes SAMPLER = false ∧
    dget samplerRes SEARCH_ALG =
      (if dmem samplerS SEARCH_ALG ∧ ¬ dmem samplerDoc SEARCH_ALG then
        dget samplerS SEARCH_ALG
       else dget samplerDoc SEARCH_ALG) ∧
    ∃ ex', dget samplerRes EXECUTOR = some (.dict ex') ∧
      dget ex' "num_samples" =
        (if dmem samplerS "num_samples" ∧ dmem samplerEx "num_samples" = false then
          dget samplerS "num_samples"
         else dget samplerEx "num_samples") ∧
      dget ex' SCHEDULER =
        (if dmem samplerS SCHEDULER ∧ dmem samplerEx SCHEDULER = false then
          dget samplerS SCHEDULER
         else dget samplerEx SCHEDULER)) :=
  ⟨rfl, rfl, rfl, sampler_migration samplerDoc samplerRes samplerS samplerEx rfl rfl rfl⟩

theorem upgrade_hyperopt_executor_type {h h' : Entries}
    (hk : upgrade_hyperopt h = .ok h') :
    (∀ e, dget h EXECUTOR = some (.dict e) →
      ∃ e', dget h' EXECUTOR = some (.dict e') ∧
        dget e' TYPE = dget (fixExecutorType e) TYPE) ∧
    (dget h EXECUTOR = Option.none →
      ∃ e', dget h' EXECUTOR = some (.dict e') ∧ dget e' TYPE = some (.str RAY)) := by
  obtain ⟨h1, h2, h3, hp, hx, hsm, rfl⟩ := upgrade_hyperopt_shape hk
  constructor
  · intro e he
    have he1 : dget h1 EXECUTOR = some (.dict e) := by
      rw [paramsStage_frame hp (by decide)]
      exact he
    rcases execStage_shape hx with ⟨hg, rfl⟩ | ⟨e0, hg, rfl⟩
    · rw [he1] at hg; cases hg
    · rw [he1] at hg
      injection hg with hg1
      injection hg1 with hg2
      subst hg2
      have he2 := promoteExecutorSearchAlg_exec h1 (fixExecutorType e)
      have hty2 : dget (if dmem (fixExecutorType e) SEARCH_ALG then
          ddel (fixExecutorType e) SEARCH_ALG else fixExecutorType e) TYPE =
          dget (fixExecutorType e) TYPE := by
        cases hc : dmem (fixExecutorType e) SEARCH_ALG
        · simp only [hc, Bool.false_eq_true, if_false]
        · simp only [hc, if_true]
          exact dget_ddel_ne _ (by decide)
      obtain ⟨hsam3, ⟨e3, he3, hty3, hsa3⟩, hframe3⟩ := samplerStage_post he2 hsm
      refine ⟨e3, ?_, ?_⟩
      · rw [defaultSearchAlg_frame _ (by decide)]
        exact he3
      · rw [hty3, hty2]
  · intro he
    have he1 : dget h1 EXECUTOR = Option.none := by
      rw [paramsStage_frame hp (by decide)]
      exact he
    rcases execStage_shape hx with ⟨hg, rfl⟩ | ⟨e0, hg, rfl⟩
    · have he2 : dget (dset h1 EXECUTOR (.dict (.cons TYPE (.str RAY) .nil))) EXECUTOR
          = some (.dict (.cons TYPE (.str RAY) .nil)) := dget_dset_self _ _ _
      obtain ⟨hsam3, ⟨e3, he3, hty3, hsa3⟩, hframe3⟩ := samplerStage_post he2 hsm
      refine ⟨e3, ?_, ?_⟩
      · rw [defaultSearchAlg_frame _ (by decide)]
        exact he3
      · rw [hty3]
        decide
    · rw [he1] at hg; cases hg

/-- C2 counterexample: a hyperopt executor that declares no type is left
without a type by the upgrade, instead of having its type forced to "ray". -/
theorem executor_without_type_not_forced :
    upgrade_deprecated_fields [] c2doc =
      .ok (.cons HYPEROPT (.dict
        (.cons EXECUTOR (.dict .nil)
          (.cons SEARCH_ALG (.dict (.cons TYPE (.str "variant_generator") .nil)) .nil)))
        .nil) ∧
    okAt (upgrade_deprecated_fields [] c2doc) [HYPEROPT, EXECUTOR, TYPE] =
      Option.none := by
  exact ⟨rfl, rfl⟩

/-- C2 amended: an executor that declares a type that is neither None nor
"ray" has its type forced to "ray"; an executor that declares no type, or a
type of None, keeps its type entry unchanged; when no executor sub-section
exists one is created whose type is "ray". -/
theorem executor_type_normalization (registry : List String) (d d' h : Entries)
    (hk : upgrade_deprecated_fields registry d = .ok d')
    (hh : dget d HYPEROPT = some (.dict h)) :
    ∃ h', dget d' HYPEROPT = some (.dict h') ∧
      (∀ e t, dget h EXECUTOR = some (.dict e) → dget e TYPE = some t →
        t ≠ .null → t ≠ .str RAY →
        ∃ e', dget h' EXECUTOR = some (.dict e') ∧ dget e' TYPE = some (.str RAY)) ∧
      (∀ e, dget h EXECUTOR = some (.dict e) →
        (dget e TYPE = Option.none ∨ dget e TYPE = some .null) →
        ∃ e', dget h' EXECUTOR = some (.dict e') ∧ dget e' TYPE = dget e TYPE) ∧
      (dget h EXECUTOR = Option.none →
        ∃ e', dget h' EXECUTOR = some (.dict e') ∧ dget e' TYPE = some (.str RAY)) := by
  obtain ⟨c1, c2, c3, c4, h1s, h2s, h3s, h4s, h5s⟩ := udf_shape hk
  have hc2 : dget c2 HYPEROPT = some (.dict h) := by
    rw [featKey_frame h2s (by decide), featKey_frame h1s (by decide),
      renameTrainingSection_frame d (by decide) (by decide)]
    exact hh
  rcases hyperoptStep_shape h3s with ⟨hg, rfl⟩ | ⟨hh0, hh', hg, hup, rfl⟩
  · rw [hc2] at hg; cases hg
  · rw [hc2] at hg
    injection hg with hg1
    injection hg1 with hg2
    subst hg2
    have hd' : dget d' HYPEROPT = some (.dict hh') := by
      rw [preprocessingStep_frame h5s (by decide) (by decide),
        trainerStep_frame h4s (by decide), dget_dset_self]
    obtain ⟨hA, hB⟩ := upgrade_hyperopt_executor_type hup
    refine ⟨hh', hd', ?_, ?_, hB⟩
    · intro e t he hty htn htr
      obtain ⟨e', he', hty'⟩ := hA e he
      refine ⟨e', he', ?_⟩
      rw [hty']
      unfold fixExecutorType
      rw [if_pos ⟨by rw [dgetD_of_dget hty]; exact htn,
        by rw [dgetD_of_dget hty]; exact htr⟩, dget_dset_self]
    · intro e he hty
      obtain ⟨e', he', hty'⟩ := hA e he
      refine ⟨e', he', ?_⟩
      rw [hty', fixExecutorType_id ?_]
      rcases hty with hty | hty
      · exact .inl (by rw [dgetD, hty]; rfl)
      · exact .inl (by rw [dgetD, hty]; rfl)

/-- Witness for the amended C2 on sampleDoc, whose executor declares the type
"serial". -/
theorem executor_type_normalization_witness :
    upgrade_deprecated_fields sampleRegistry sampleDoc = .ok sampleUpgraded ∧
    dget sampleDoc HYPEROPT = some (.dict sampleHyperopt) ∧
    ∃ h', dget sampleUpgraded HYPEROPT = some (.dict h') ∧
      (∀ e t, dget sampleHyperopt EXECUTOR = some (.dict e) → dget e TYPE = some t →
        t ≠ .null → t ≠ .str RAY →
        ∃ e', dget h' EXECUTOR = some (.dict e') ∧ dget e' TYPE = some (.str RAY)) ∧
      (∀ e, dget sampleHyperopt EXECUTOR = some (.dict e) →
        (dget e TYPE = Option.none ∨ dget e TYPE = some .null) →
        ∃ e', dget h' EXECUTOR = some (.dict e') ∧ dget e' TYPE = dget e TYPE) ∧
      (dget sampleHyperopt EXECUTOR = Option.none →
        ∃ e', dget h' EXECUTOR = some (.dict e') ∧ dget e' TYPE = some (.str RAY)) :=
  ⟨rfl, rfl,
    executor_type_normalization sampleRegistry sampleDoc sampleUpgraded
      sampleHyperopt rfl rfl⟩

theorem relocateValue_merge {defs : Entries} {t : String} {ppd dft exPre stagedPre : Entries}
    (hdft : dget defs t = some (.dict dft))
    (hex : dget dft PREPROCESSING = some (.dict exPre))
    (hpp : dget ppd PREPROCESSING = some (.dict stagedPre)) :
    relocateValue defs t (.dict ppd) =
      .ok (dset defs t
        (.dict (dset dft PREPROCESSING (.dict (merge_dict exPre stagedPre))))) := by
  unfold relocateValue
  rw [if_neg (fun hc => hc (by simp [dmem, hdft]))]
  simp only [hdft]
  rw [if_neg (fun hc => hc (by simp [dmem, hex]))]
  simp only [hex, hpp]

/-- C1 counterexample: with a merge conflict at
defaults.number.preprocessing.missing_value_strategy, the upgrade keeps the
staged leaf value instead of the pre-existing one. -/
theorem merge_conflict_staged_wins :
    okAt (upgrade_deprecated_fields ["number"] c1doc)
        [DEFAULTS, "number", PREPROCESSING, "missing_value_strategy"]
      = some (.str "staged") ∧
    atPath (some (.dict c1doc))
        [DEFAULTS, "number", PREPROCESSING, "missing_value_strategy"]
      = some (.str "existing") := by
  exact ⟨rfl, rfl⟩

/-- C1 amended: when the preprocessing relocation finds an existing
defaults.t.preprocessing mapping, the result at that key is
merge_dict(existing, staged): keys missing from the staged mapping keep the
existing value, keys held by both recurse when both values are mappings, and
at every other key held by the staged mapping the staged value wins, so
pre-existing concrete leaf values are overwritten by staged ones rather than
retained. -/
theorem preprocessing_merge_staged_wins (registry : List String) (c c' : Entries)
    (t : String) (pre ppd defs dft exPre stagedPre : Entries)
    (hpre : dget c PREPROCESSING = some (.dict pre))
    (hstaged : stagedParams registry pre = [(t, .dict ppd)])
    (hpp : dget ppd PREPROCESSING = some (.dict stagedPre))
    (hnd : (stagedPre.toList.map Prod.fst).Nodup)
    (hdefs : dget c DEFAULTS = some (.dict defs))
    (hdft : dget defs t = some (.dict dft))
    (hex : dget dft PREPROCESSING = some (.dict exPre))
    (hk : upgrade_preprocessing registry c = .ok c') :
    ∃ defs' dft' res,
      dget c' DEFAULTS = some (.dict defs') ∧ dget defs' t = some (.dict dft') ∧
      dget dft' PREPROCESSING = some (.dict res) ∧
      res = merge_dict exPre stagedPre ∧
      (∀ k, dmem stagedPre k = false → dget res k = dget exPre k) ∧
      (∀ k v, dget stagedPre k = some v → bothDicts (dget exPre k) v = false →
        dget res k = some v) ∧
      (∀ k ad bd, dget exPre k = some (.dict ad) → dget stagedPre k = some (.dict bd) →
        dget res k = some (.dict (merge_dict ad bd))) := by
  obtain ⟨pre0, hpre0, hfold⟩ := upgrade_preprocessing_shape hk
  rw [hpre] at hpre0
  injection hpre0 with hp1
  injection hp1 with hp2
  subst hp2
  rw [hstaged, List.foldlM_cons] at hfold
  have hc0defs : dget (ensureDefaults
      (dset c PREPROCESSING (.dict (dropRegistryKeys registry pre)))) DEFAULTS
      = some (.dict defs) := by
    rw [ensureDefaults_skip (by rw [dmem_dset_ne _ _ (by decide)]; simp [dmem, hdefs]),
      dget_dset_ne _ _ (by decide)]
    exact hdefs
  have hrel : relocateOne (ensureDefaults
      (dset c PREPROCESSING (.dict (dropRegistryKeys registry pre)))) t (.dict ppd) =
      .ok (dset (ensureDefaults
        (dset c PREPROCESSING (.dict (dropRegistryKeys registry pre)))) DEFAULTS
        (.dict (dset defs t
          (.dict (dset dft PREPROCESSING (.dict (merge_dict exPre stagedPre))))))) := by
    unfold relocateOne
    simp only [hc0defs]
    rw [relocateValue_merge hdft hex hpp]
  rw [hrel] at hfold
  simp only [Bind.bind, Except.bind, List.foldlM_nil] at hfold
  have hfold2 : Except.ok (dset (ensureDefaults
      (dset c PREPROCESSING (.dict (dropRegistryKeys registry pre)))) DEFAULTS
      (.dict (dset defs t
        (.dict (dset dft PREPROCESSING (.dict (merge_dict exPre stagedPre)))))))
      = Except.ok c' := hfold
  cases hfold2
  refine ⟨dset defs t (.dict (dset dft PREPROCESSING (.dict (merge_dict exPre stagedPre)))),
    dset dft PREPROCESSING (.dict (merge_dict exPre stagedPre)),
    merge_dict exPre stagedPre,
    dget_dset_self _ _ _, dget_dset_self _ _ _, dget_dset_self _ _ _, rfl, ?_, ?_, ?_⟩
  · intro k hkm
    exact merge_dict_dget_absent stagedPre exPre hkm
  · intro k v hkv hnb
    exact merge_dict_dget_right stagedPre exPre hkv hnb hnd
  · intro k ad bd hka hkb
    exact merge_dict_dget_both stagedPre exPre hka hkb hnd

/-- Witness for the amended C1 on the merge-conflict document. -/
theorem preprocessing_merge_staged_wins_witness :
    upgrade_preprocessing ["number"] c1doc = .ok c1res ∧
    ∃ defs' dft' res,
      dget c1res DEFAULTS = some (.dict defs') ∧ dget defs' "number" = some (.dict dft') ∧
      dget dft' PREPROCESSING = some (.dict res) ∧
      res = merge_dict (.ofL [("missing_value_strategy", .str "existing")])
        (.ofL [("missing_value_strategy", .str "staged")]) ∧
      (∀ k, dmem (Entries.ofL [("missing_value_strategy", .str "staged")]) k = false →
        dget res k = dget (Entries.ofL [("missing_value_strategy", .str "existing")]) k) ∧
      (∀ k v, dget (Entries.ofL [("missing_value_strategy", .str "staged")]) k = some v →
        bothDicts (dget (Entries.ofL [("missing_value_strategy", .str "existing")]) k) v
          = false →
        dget res k = some v) ∧
      (∀ k ad bd,
        dget (Entries.ofL [("missing_value_strategy", .str "existing")]) k
          = some (.dict ad) →
        dget (Entries.ofL [("missing_value_strategy", .str "staged")]) k
          = some (.dict bd) →
        dget res k = some (.dict (merge_dict ad bd))) :=
  ⟨rfl,
    preprocessing_merge_staged_wins ["number"] c1doc c1res "number"
      (.ofL [("number", Value.obj
        [(PREPROCESSING, Value.obj [("missing_value_strategy", .str "staged")])])])
      (.ofL [(PREPROCESSING, Value.obj [("missing_value_strategy", .str "staged")])])
      (.ofL [("number", Value.obj
        [(PREPROCESSING, Value.obj [("missing_value_strategy", .str "existing")])])])
      (.ofL [(PREPROCESSING, Value.obj [("missing_value_strategy", .str "existing")])])
      (.ofL [("missing_value_strategy", .str "existing")])
      (.ofL [("missing_value_strategy", .str "staged")])
      rfl rfl rfl (by decide) rfl rfl rfl rfl⟩

end Ludwig
